import Mathlib

/-!
# Verification of the finsight statement-to-ledger pipeline

Shallow embedding of the JavaScript/TypeScript sources of the `finsight`
repository (issuer detection, PII scrubbing, and the transaction parsers),
together with proofs about the embedded definitions.

Conventions of the embedding:

* Text is modelled as `List Char` (with `String` wrappers at the API
  boundary); a "line" is a `List Char` containing no `'\n'`.
* JavaScript numbers arising from `parseFloat` on decimal-formatted tokens
  such as `"1,014.71"` are modelled exactly as integer *cents* (`Int`);
  all comparisons and subtractions performed by the source on such values
  are order- and ring-compatible with this representation.
* Regular-expression operations of the source are embedded as explicit
  scanners implementing the leftmost-match / greedy / lazy backtracking
  semantics of the concrete pattern being modelled; each scanner is
  documented with the pattern it embeds.
-/

namespace Finsight

/-! ## Character classes and elementary string operations -/

/-- Character class of the regex `\d`. -/
def isDigitC (c : Char) : Bool := '0' ≤ c && c ≤ '9'

/-- Character class of `[\d,]` (digits and the thousands separator). -/
def isNumC (c : Char) : Bool := isDigitC c || c = ','

/-- Character class of the regex `\s` (whitespace), restricted to the ASCII
whitespace characters that can occur in extracted statement text. -/
def isWsC (c : Char) : Bool := c = ' ' || c = '\t' || c = '\n' || c = '\r'

/-- Character class of `[A-Z]`. -/
def isUpperC (c : Char) : Bool := 'A' ≤ c && c ≤ 'Z'

/-- Character class of `[a-z]`. -/
def isLowerC (c : Char) : Bool := 'a' ≤ c && c ≤ 'z'

/-- Character class of `[A-Za-z]`. -/
def isAlphaC (c : Char) : Bool := isUpperC c || isLowerC c

/-- Character class of the regex `\w` (word character). -/
def isWordC (c : Char) : Bool := isAlphaC c || isDigitC c || c = '_'

/-- JavaScript `toUpperCase` restricted to ASCII, used for the `/i` flag. -/
def upC (c : Char) : Char := if isLowerC c then Char.ofNat (c.toNat - 32) else c

/-- Uppercase a character list (for case-insensitive comparisons). -/
def upL (s : List Char) : List Char := s.map upC

/-- `needle.isPrefixOf hay` on characters. -/
def prefixAt : List Char → List Char → Bool
  | [], _ => true
  | _ :: _, [] => false
  | n :: ns, h :: hs => n = h && prefixAt ns hs

/-- JavaScript `String.prototype.includes` (literal substring search). -/
def containsSub (hay needle : List Char) : Bool :=
  match hay with
  | [] => prefixAt needle []
  | _ :: hs => prefixAt needle hay || containsSub hs needle

/-- Case-insensitive literal substring test (a `/lit/i` regex test). -/
def containsSubCI (hay needle : List Char) : Bool :=
  containsSub (upL hay) (upL needle)

/-- Test of a regex `/A.*B/i` on a single line: an occurrence of `A`
followed (at or after its end) by an occurrence of `B`, case-insensitively. -/
def containsInOrderCI (hay a b : List Char) : Bool :=
  go (upL hay) (upL a) (upL b)
where
  /-- Search for the first occurrence of `a`; then `b` must occur in the rest. -/
  go : List Char → List Char → List Char → Bool
    | [], a, _ => a.isEmpty && false
    | h :: hs, a, b =>
      if prefixAt a (h :: hs) then containsSub ((h :: hs).drop a.length) b
      else go hs a b

/-- JavaScript `String.prototype.trim` (strip leading/trailing whitespace). -/
def trimL (s : List Char) : List Char :=
  ((s.dropWhile isWsC).reverse.dropWhile isWsC).reverse

/-- Split on a separator character (JavaScript `text.split('\n')`). -/
def splitCh (sep : Char) : List Char → List (List Char)
  | [] => [[]]
  | c :: cs =>
    let rest := splitCh sep cs
    if c = sep then [] :: rest
    else
      match rest with
      | [] => [[c]]
      | r :: rs => (c :: r) :: rs

/-- Join with a separator character (inverse of `splitCh`). -/
def joinCh (sep : Char) : List (List Char) → List Char
  | [] => []
  | [l] => l
  | l :: ls => l ++ sep :: joinCh sep ls

theorem splitCh_ne_nil (sep : Char) (s : List Char) : splitCh sep s ≠ [] := by
  cases s with
  | nil => simp [splitCh]
  | cons c cs =>
    simp only [splitCh]
    split
    · simp
    · split <;> simp

theorem joinCh_cons_cons (sep : Char) (l l2 : List Char) (ls : List (List Char)) :
    joinCh sep (l :: l2 :: ls) = l ++ sep :: joinCh sep (l2 :: ls) := rfl

theorem joinCh_splitCh (sep : Char) (s : List Char) :
    joinCh sep (splitCh sep s) = s := by
  induction s with
  | nil => rfl
  | cons c cs ih =>
    simp only [splitCh]
    by_cases h : c = sep
    · subst h
      rw [if_pos rfl]
      cases hs : splitCh c cs with
      | nil => exact absurd hs (splitCh_ne_nil c cs)
      | cons r rs =>
        rw [hs] at ih
        rw [joinCh_cons_cons]
        simpa using ih
    · simp only [if_neg h]
      cases hs : splitCh sep cs with
      | nil => exact absurd hs (splitCh_ne_nil sep cs)
      | cons r rs =>
        rw [hs] at ih
        cases rs with
        | nil => simpa [joinCh] using ih
        | cons r2 rs2 =>
          rw [joinCh_cons_cons]
          rw [joinCh_cons_cons] at ih
          simpa using ih

theorem splitCh_no_sep (sep : Char) (l : List Char) (h : sep ∉ l) :
    splitCh sep l = [l] := by
  induction l with
  | nil => rfl
  | cons c cs ih =>
    have hc : ¬(c = sep) := fun e => h (e ▸ List.mem_cons_self _ _)
    have hcs : sep ∉ cs := fun m => h (List.mem_cons_of_mem _ m)
    simp only [splitCh, if_neg hc, ih hcs]

theorem splitCh_append_sep (sep : Char) (l t : List Char) (h : sep ∉ l) :
    splitCh sep (l ++ sep :: t) = l :: splitCh sep t := by
  induction l with
  | nil => simp [splitCh]
  | cons c cs ih =>
    have hc : ¬(c = sep) := fun e => h (e ▸ List.mem_cons_self _ _)
    have hcs : sep ∉ cs := fun m => h (List.mem_cons_of_mem _ m)
    simp only [List.cons_append, splitCh, if_neg hc]
    rw [show cs.append (sep :: t) = cs ++ sep :: t from rfl, ih hcs]

theorem splitCh_joinCh (sep : Char) (ls : List (List Char))
    (hne : ls ≠ []) (h : ∀ l ∈ ls, sep ∉ l) :
    splitCh sep (joinCh sep ls) = ls := by
  induction ls with
  | nil => exact absurd rfl hne
  | cons l ls ih =>
    have hl : sep ∉ l := h l (List.mem_cons_self _ _)
    cases ls with
    | nil => exact splitCh_no_sep sep l hl
    | cons l2 ls2 =>
      rw [joinCh_cons_cons, splitCh_append_sep sep l _ hl,
        ih (by simp) (fun x hx => h x (List.mem_cons_of_mem _ hx))]

/-! ## The decimal-token scanner

Embeds the global regex match `text.match(/[\d,]+\.\d{2}/g)` used by all
three parsers to collect decimal-formatted numeric tokens.  A match is a
maximal run of `[\d,]` characters followed by `'.'` and two digits (the
greedy `[\d,]+` cannot backtrack usefully because a shorter run is still
followed by a `[\d,]` character, never by `'.'`; after a failed attempt at
the start of a run, every position inside the run fails for the same
reason, so the scan may resume after the run). -/

theorem dropWhile_len_le (p : Char → Bool) (l : List Char) :
    (l.dropWhile p).length ≤ l.length := by
  induction l with
  | nil => simp
  | cons c cs ih =>
    simp only [List.dropWhile]
    split
    · exact Nat.le_succ_of_le ih
    · exact Nat.le_refl _

def tokensF : Nat → List Char → List (List Char)
  | 0, _ => []
  | _ + 1, [] => []
  | fuel + 1, c :: cs =>
    if isNumC c then
      match cs.dropWhile isNumC with
      | '.' :: d1 :: d2 :: rest2 =>
        if isDigitC d1 && isDigitC d2 then
          ((c :: cs.takeWhile isNumC) ++ ['.', d1, d2]) :: tokensF fuel rest2
        else tokensF fuel (cs.dropWhile isNumC)
      | _ => tokensF fuel (cs.dropWhile isNumC)
    else tokensF fuel cs

/-- The full scan: fuel equal to the input length always suffices since
every recursive step of `tokensF` consumes at least one character. -/
def tokensAux (s : List Char) : List (List Char) := tokensF s.length s

theorem tokensF_nil (fuel : Nat) : tokensF fuel [] = [] := by
  cases fuel <;> rfl

/-- `parseFloat` on a digit string, in exact arithmetic. -/
def parseNatDigits (s : List Char) : Nat :=
  s.foldl (fun a c => a * 10 + (c.toNat - 48)) 0

/-- `parseFloat(token.replace(/,/g, ''))` for a token of the decimal-token
grammar (`[\d,]+\.\d{2}`), represented exactly as integer cents. -/
def parseCents (t : List Char) : Int :=
  let noC := t.filter (fun c => !(c = ','))
  let ip := noC.takeWhile (fun c => !(c = '.'))
  let fp := (noC.dropWhile (fun c => !(c = '.'))).drop 1
  (parseNatDigits ip * 100 + parseNatDigits (fp.take 2) : Nat)

/-- `token.includes(',')`. -/
def hasComma (t : List Char) : Bool := t.any (fun c => c = ',')

/-! ## Rendering nonnegative cent amounts as decimal text (for synthetic
statements used in the round-trip property) -/

/-- Decimal digit characters of a natural number, most significant first. -/
def natChars (n : Nat) : List Char :=
  if n = 0 then ['0'] else ((Nat.digits 10 n).map Nat.digitChar).reverse

/-- Two-digit field with leading zero (`String.padStart(2, '0')` of a
remainder below 100). -/
def pad2 (r : Nat) : List Char := [Nat.digitChar (r / 10), Nat.digitChar (r % 10)]

/-- Plain (comma-free) decimal rendering of a nonnegative cent amount,
e.g. `123456 ↦ "1234.56"`. -/
def fmtCents (n : Nat) : List Char := natChars (n / 100) ++ '.' :: pad2 (n % 100)

theorem digitChar_isDigitC (d : Nat) (h : d < 10) :
    isDigitC (Nat.digitChar d) = true := by
  interval_cases d <;> rfl

theorem digitChar_toNat (d : Nat) (h : d < 10) :
    (Nat.digitChar d).toNat - 48 = d := by
  interval_cases d <;> rfl

theorem natChars_all_digit (n : Nat) : ∀ c ∈ natChars n, isDigitC c = true := by
  intro c hc
  unfold natChars at hc
  split at hc
  · simp at hc; subst hc; rfl
  · simp only [List.mem_reverse, List.mem_map] at hc
    obtain ⟨d, hd, rfl⟩ := hc
    exact digitChar_isDigitC d (Nat.digits_lt_base (by norm_num) hd)

theorem natChars_ne_nil (n : Nat) : natChars n ≠ [] := by
  unfold natChars
  split
  · simp
  · simp [Nat.digits_ne_nil_iff_ne_zero, *]

theorem parseNatDigits_append_singleton (A : List Char) (c : Char) :
    parseNatDigits (A ++ [c]) = parseNatDigits A * 10 + (c.toNat - 48) := by
  simp [parseNatDigits, List.foldl_append]

theorem parseNatDigits_natChars (n : Nat) : parseNatDigits (natChars n) = n := by
  unfold natChars
  split
  · subst ‹n = 0›; rfl
  · have key : ∀ ds : List Nat, (∀ d ∈ ds, d < 10) →
        parseNatDigits ((ds.map Nat.digitChar).reverse) = Nat.ofDigits 10 ds := by
      intro ds
      induction ds with
      | nil => intro _; rfl
      | cons d ds ih =>
        intro h
        simp only [List.map_cons, List.reverse_cons]
        rw [parseNatDigits_append_singleton,
          ih (fun x hx => h x (List.mem_cons_of_mem _ hx)),
          digitChar_toNat d (h d (List.mem_cons_self _ _))]
        rw [Nat.ofDigits_cons]
        ring
    rw [key _ (fun d hd => Nat.digits_lt_base (by norm_num) hd),
      Nat.ofDigits_digits]

theorem parseNatDigits_pad2 (r : Nat) (h : r < 100) :
    parseNatDigits (pad2 r) = r := by
  unfold pad2
  have h1 : r / 10 < 10 := by omega
  have h2 : r % 10 < 10 := Nat.mod_lt _ (by norm_num)
  show parseNatDigits ([Nat.digitChar (r / 10)] ++ [Nat.digitChar (r % 10)]) = r
  rw [parseNatDigits_append_singleton, digitChar_toNat _ h2]
  have : parseNatDigits [Nat.digitChar (r / 10)] = r / 10 := by
    show parseNatDigits ([] ++ [Nat.digitChar (r / 10)]) = r / 10
    rw [parseNatDigits_append_singleton, digitChar_toNat _ h1]
    simp [parseNatDigits]
  rw [this]
  omega

theorem pad2_all_digit (r : Nat) (h : r < 100) :
    ∀ c ∈ pad2 r, isDigitC c = true := by
  intro c hc
  have h1 : r / 10 < 10 := by omega
  have h2 : r % 10 < 10 := Nat.mod_lt _ (by norm_num)
  simp only [pad2, List.mem_cons, List.mem_singleton, List.not_mem_nil,
    or_false] at hc
  rcases hc with rfl | rfl
  · exact digitChar_isDigitC _ h1
  · exact digitChar_isDigitC _ h2

theorem isDigitC_isNumC (c : Char) (h : isDigitC c = true) : isNumC c = true := by
  simp [isNumC, h]

theorem isDigitC_ne_comma (c : Char) (h : isDigitC c = true) : ¬(c = ',') := by
  intro e; subst e; simp [isDigitC] at h

theorem isDigitC_ne_dot (c : Char) (h : isDigitC c = true) : ¬(c = '.') := by
  intro e; subst e; simp [isDigitC] at h

theorem isDigitC_ne_newline (c : Char) (h : isDigitC c = true) : ¬(c = '\n') := by
  intro e; subst e; simp [isDigitC] at h

theorem takeWhile_append_all {p : Char → Bool} (A : List Char) (b : Char)
    (t : List Char) (hA : ∀ c ∈ A, p c = true) (hb : p b = false) :
    (A ++ b :: t).takeWhile p = A := by
  induction A with
  | nil => simp [List.takeWhile, hb]
  | cons c cs ih =>
    simp only [List.cons_append, List.takeWhile, hA c (List.mem_cons_self _ _),
      List.append_eq]
    rw [ih (fun x hx => hA x (List.mem_cons_of_mem _ hx))]

theorem dropWhile_append_all {p : Char → Bool} (A : List Char) (b : Char)
    (t : List Char) (hA : ∀ c ∈ A, p c = true) (hb : p b = false) :
    (A ++ b :: t).dropWhile p = b :: t := by
  induction A with
  | nil => simp [List.dropWhile, hb]
  | cons c cs ih =>
    simp only [List.cons_append, List.dropWhile, hA c (List.mem_cons_self _ _),
      List.append_eq]
    exact ih (fun x hx => hA x (List.mem_cons_of_mem _ hx))

/-- `parseCents (fmtCents n) = n`: the decimal rendering round-trips. -/
theorem parseCents_fmtCents (n : Nat) : parseCents (fmtCents n) = (n : Int) := by
  unfold parseCents fmtCents
  have hip := natChars_all_digit (n / 100)
  have hfp := pad2_all_digit (n % 100) (Nat.mod_lt _ (by norm_num))
  have hfilterAll :
      (natChars (n / 100) ++ '.' :: pad2 (n % 100)).filter (fun c => !(c = ',')) =
        natChars (n / 100) ++ '.' :: pad2 (n % 100) := by
    apply List.filter_eq_self.mpr
    intro c hc
    rcases List.mem_append.mp hc with hc | hc
    · simp [isDigitC_ne_comma c (hip c hc)]
    · rcases List.mem_cons.mp hc with rfl | hc
      · simp
      · simp [isDigitC_ne_comma c (hfp c hc)]
  have htake : (natChars (n / 100) ++ '.' :: pad2 (n % 100)).takeWhile
      (fun c => !(c = '.')) = natChars (n / 100) :=
    takeWhile_append_all _ _ _
      (fun c hc => by simp [isDigitC_ne_dot c (hip c hc)]) (by simp)
  have hdrop : (natChars (n / 100) ++ '.' :: pad2 (n % 100)).dropWhile
      (fun c => !(c = '.')) = '.' :: pad2 (n % 100) :=
    dropWhile_append_all _ _ _
      (fun c hc => by simp [isDigitC_ne_dot c (hip c hc)]) (by simp)
  simp only [hfilterAll, htake, hdrop, List.drop_succ_cons, List.drop_zero]
  have : (pad2 (n % 100)).take 2 = pad2 (n % 100) := by simp [pad2]
  rw [this, parseNatDigits_natChars, parseNatDigits_pad2 _ (Nat.mod_lt _ (by norm_num))]
  push_cast
  omega

/-- `fmtCents` contains no comma, so `hasComma` is false on it. -/
theorem hasComma_fmtCents (n : Nat) : hasComma (fmtCents n) = false := by
  unfold hasComma fmtCents
  simp only [List.any_append, List.any_cons, Bool.or_eq_false_iff]
  refine ⟨?_, by simp, ?_⟩
  · simp only [List.any_eq_false]
    intro c hc
    simp [isDigitC_ne_comma c (natChars_all_digit _ c hc)]
  · simp only [List.any_eq_false]
    intro c hc
    simp [isDigitC_ne_comma c (pad2_all_digit _ (Nat.mod_lt _ (by norm_num)) c hc)]

/-- Scanning the rendered amount alone yields exactly that one token. -/
theorem tokensAux_fmtCents (n : Nat) : tokensAux (fmtCents n) = [fmtCents n] := by
  unfold fmtCents
  obtain ⟨c, cs, hcc⟩ : ∃ c cs, natChars (n / 100) = c :: cs := by
    cases h : natChars (n / 100) with
    | nil => exact absurd h (natChars_ne_nil _)
    | cons c cs => exact ⟨c, cs, rfl⟩
  have hall := natChars_all_digit (n / 100)
  rw [hcc] at hall ⊢
  have hc : isNumC c = true :=
    isDigitC_isNumC c (hall c (List.mem_cons_self _ _))
  have hcsall : ∀ x ∈ cs, isNumC x = true :=
    fun x hx => isDigitC_isNumC x (hall x (List.mem_cons_of_mem _ hx))
  have hd1 : isDigitC (Nat.digitChar (n % 100 / 10)) = true :=
    digitChar_isDigitC _ (by omega)
  have hd2 : isDigitC (Nat.digitChar (n % 100 % 10)) = true :=
    digitChar_isDigitC _ (Nat.mod_lt _ (by norm_num))
  have htk : (cs ++ '.' :: pad2 (n % 100)).takeWhile isNumC = cs :=
    takeWhile_append_all _ _ _ hcsall (by simp [isNumC, isDigitC])
  have hdw : (cs ++ '.' :: pad2 (n % 100)).dropWhile isNumC = '.' :: pad2 (n % 100) :=
    dropWhile_append_all _ _ _ hcsall (by simp [isNumC, isDigitC])
  simp only [pad2] at htk hdw
  show tokensF (c :: (cs ++ '.' :: pad2 (n % 100))).length
      (c :: (cs ++ '.' :: pad2 (n % 100))) = _
  rw [List.length_cons]
  simp only [pad2, tokensF, hc, if_true, hdw, htk, hd1, hd2, Bool.and_self,
    tokensF_nil]

/-! ## Shared regex helpers for the parsers -/

/-- Case-insensitive prefix test. -/
def prefixAtCI (needle s : List Char) : Bool := prefixAt (upL needle) (upL s)

/-- Anchored match of `([\d,]+\.\d{2})` at the start of `s` (greedy run,
then `'.'` and exactly two digits); returns the matched token. -/
def tokenAt (s : List Char) : Option (List Char) :=
  let run := s.takeWhile isNumC
  if run.isEmpty then none
  else
    match s.dropWhile isNumC with
    | '.' :: d1 :: d2 :: _ =>
      if isDigitC d1 && isDigitC d2 then some (run ++ ['.', d1, d2]) else none
    | _ => none

/-- `s.split(/\s+/)` on an already-trimmed string (the source always calls
`.trim()` first, so the leading-empty-segment case of the JavaScript split
cannot arise). -/
def splitWsTokensF : Nat → List Char → List (List Char)
  | 0, _ => []
  | _ + 1, [] => []
  | fuel + 1, c :: cs =>
    if isWsC c then splitWsTokensF fuel cs
    else
      (c :: cs.takeWhile (fun d => !isWsC d)) ::
        splitWsTokensF fuel (cs.dropWhile (fun d => !isWsC d))

/-- Fuel wrapper; the input length always suffices. -/
def splitWsTokens (s : List Char) : List (List Char) :=
  splitWsTokensF s.length s

/-- `String.padStart(2, '0')`. -/
def padStart2 (s : List Char) : List Char :=
  if s.length ≥ 2 then s else if s.length = 1 then '0' :: s else ['0', '0']

/-- Association-list lookup with character-list keys (a JavaScript object
literal used as a lookup table). -/
def lookupL (table : List (List Char × List Char)) (key : List Char) :
    Option (List Char) :=
  (table.find? (fun p => p.1 = key)).map (·.2)

/-- The `months` table of `balance-based.js` (full and short names). -/
def bbMonths : List (List Char × List Char) :=
  [("January".data, "01".data), ("February".data, "02".data),
   ("March".data, "03".data), ("April".data, "04".data),
   ("May".data, "05".data), ("June".data, "06".data),
   ("July".data, "07".data), ("August".data, "08".data),
   ("September".data, "09".data), ("October".data, "10".data),
   ("November".data, "11".data), ("December".data, "12".data),
   ("Jan".data, "01".data), ("Feb".data, "02".data), ("Mar".data, "03".data),
   ("Apr".data, "04".data), ("Jun".data, "06".data), ("Jul".data, "07".data),
   ("Aug".data, "08".data), ("Sep".data, "09".data), ("Oct".data, "10".data),
   ("Nov".data, "11".data), ("Dec".data, "12".data)]

/-- `convertToISO(dateStr, year)`: `"${year}-${month}-${day}"` with the
month looked up in `table` (an absent key renders as `"undefined"`, as the
JavaScript template literal would). -/
def convertToISO (table : List (List Char × List Char))
    (dateStr year : List Char) : List Char :=
  let parts := splitWsTokens (trimL dateStr)
  let month := (lookupL table (parts.headD [])).getD "undefined".data
  let day := padStart2 ((parts.get? 1).getD [])
  year ++ '-' :: (month ++ '-' :: day)

/-- Test of `/^\d+[\.,]\d{2}$/` (a bare balance figure on its own line). -/
def isBalanceOnlyLine (line : List Char) : Bool :=
  let ds := line.takeWhile isDigitC
  !ds.isEmpty &&
    match line.dropWhile isDigitC with
    | s :: d1 :: d2 :: [] => (s = '.' || s = ',') && isDigitC d1 && isDigitC d2
    | _ => false

/-- The short month names of the CIBC date grammar, in source order. -/
def cibcMonthNames : List (List Char) :=
  ["Nov".data, "Dec".data, "Jan".data, "Feb".data, "Mar".data, "Apr".data,
   "May".data, "Jun".data, "Jul".data, "Aug".data, "Sep".data, "Oct".data]

/-- The short month names of the RBC date grammar, in source order. -/
def rbcMonthNames : List (List Char) :=
  ["Jan".data, "Feb".data, "Mar".data, "Apr".data, "May".data, "Jun".data,
   "Jul".data, "Aug".data, "Sep".data, "Oct".data, "Nov".data, "Dec".data]

/-- Match of `/^(Mon…)\s+(\d+)/` (CIBC date line): month alternation, then
whitespace, then a digit run; returns `(month, day digits)`. -/
def cibcDateMatch (line : List Char) : Option (List Char × List Char) :=
  cibcMonthNames.findSome? fun m =>
    if prefixAt m line then
      let rest := line.drop m.length
      let ws := rest.takeWhile isWsC
      let ds := (rest.dropWhile isWsC).takeWhile isDigitC
      if !ws.isEmpty && !ds.isEmpty then some (m, ds) else none
    else none

/-- Match of `/^(\d{1,2})\s+(Mon…)/` (RBC date line); returns
`(day digits, month)`. -/
def rbcDateMatch (line : List Char) : Option (List Char × List Char) :=
  let ds := line.takeWhile isDigitC
  if ds.isEmpty || ds.length > 2 then none
  else
    let rest := line.dropWhile isDigitC
    let ws := rest.takeWhile isWsC
    if ws.isEmpty then none
    else
      (rbcMonthNames.findSome? fun m =>
        if prefixAt m (rest.dropWhile isWsC) then some (ds, m) else none)

/-! ## `parsers/balance-based.js` -/

/-- `parseTransactions`' header/junk filter (`balance-based.js` lines 67-77). -/
def bbIsJunk (line : List Char) : Bool :=
  line.isEmpty ||
  containsSub line "Transaction details".data ||
  containsSub line "Details of your account".data ||
  containsSub line "Page ".data ||
  containsSub line "continued".data ||
  containsSub line "DateDescription".data ||
  containsSub line "Balance forward".data ||
  containsSub line "Opening balance".data ||
  containsSub line "Closing balance".data ||
  containsSub line "Account Statement".data

/-- `patterns.some(p => p.test(line))` of `balance-based.js` (the
transaction-opening keyword patterns; `/E-TRANSFER/i` and `/e-Transfer/i`
coincide case-insensitively but both are kept, mirroring the source). -/
def bbIsTransaction (line : List Char) : Bool :=
  containsInOrderCI line "VISA DEBIT".data "PURCHASE".data ||
  containsInOrderCI line "VISA DEBIT".data "REVERSAL".data ||
  containsSubCI line "INTL VISA DEB".data ||
  containsSubCI line "E-TRANSFER".data ||
  containsSubCI line "e-Transfer".data ||
  containsSubCI line "PREAUTHORIZED DEBIT".data ||
  containsSubCI line "DEPOSIT".data ||
  containsSubCI line "INTERNET TRANSFER".data ||
  containsSubCI line "SERVICE CHARGE".data ||
  containsSubCI line "Contactless Interac purchase".data ||
  containsSubCI line "Online Banking payment".data ||
  containsSubCI line "Telephone Bill Pmt".data ||
  containsSubCI line "Misc Payment".data ||
  containsSubCI line "Monthly fee".data

/-- Character class `[A-Z\s_\-\/\*\.]` of the merchant-name regex. -/
def bbMerchantCls (c : Char) : Bool :=
  isUpperC c || isWsC c || c = '_' || c = '-' || c = '/' || c = '*' || c = '.'

/-- Lazy match of `/^([A-Z][A-Z\s_\-\/\*\.]+?)(?=\d)/`: the shortest prefix
of at least two characters (capital first, then class characters) whose
next character is a digit. -/
def bbMerchantMatch (line : List Char) : Option (List Char) :=
  match line with
  | c :: rest => if isUpperC c then go [c] rest else none
  | [] => none
where
  go (acc : List Char) : List Char → Option (List Char)
    | [] => none
    | d :: ds =>
      if bbMerchantCls d then
        match ds with
        | e :: _ =>
          if isDigitC e then some (acc ++ [d]) else go (acc ++ [d]) ds
        | [] => none
      else none

/-- `s.split(/\s+\d/)[0]`: the segment before the first whitespace run that
is immediately followed by a digit. -/
def splitBeforeWsDigit : List Char → List Char
  | [] => []
  | c :: cs =>
    if isWsC c then
      match cs.dropWhile isWsC with
      | d :: _ => if isDigitC d then [] else c :: splitBeforeWsDigit cs
      | [] => c :: splitBeforeWsDigit cs
    else c :: splitBeforeWsDigit cs

/-- Merchant-name extraction from the following line
(`balance-based.js` lines 136-148). -/
def bbMerchant (nextLine : Option (List Char)) : List Char :=
  match nextLine with
  | none => "Unknown".data
  | some nl0 =>
    let nl := trimL nl0
    match bbMerchantMatch nl with
    | some m => trimL m
    | none =>
      match nl with
      | c :: _ => if isUpperC c then trimL (splitBeforeWsDigit nl) else "Unknown".data
      | [] => "Unknown".data

/-- `a.endsWith(b)` on character lists. -/
def endsWithL (s suffix : List Char) : Bool := prefixAt suffix.reverse s.reverse

/-- `merchant.replace(/\s+/g, ' ')`: collapse each whitespace run to one
space. -/
def collapseWsF : Nat → List Char → List Char
  | 0, s => s
  | _ + 1, [] => []
  | fuel + 1, c :: cs =>
    if isWsC c then ' ' :: collapseWsF fuel (cs.dropWhile isWsC)
    else c :: collapseWsF fuel cs

/-- Fuel wrapper; the input length always suffices. -/
def collapseWs (s : List Char) : List Char := collapseWsF s.length s

/-- `s.replace(/needle/g, repl)` for a literal (non-empty) needle,
fuel-driven. -/
def replaceAllF (needle repl : List Char) : Nat → List Char → List Char
  | 0, s => s
  | _ + 1, [] => []
  | fuel + 1, c :: cs =>
    if prefixAt needle (c :: cs) && !needle.isEmpty then
      repl ++ replaceAllF needle repl fuel ((c :: cs).drop needle.length)
    else c :: replaceAllF needle repl fuel cs

/-- Fuel wrapper; the input length always suffices. -/
def replaceAllL (needle repl : List Char) (s : List Char) : List Char :=
  replaceAllF needle repl s.length s

/-- `merchant.replace(/\s+SUF\.?$/i, '')`: strip a legal-suffix token (with
optional trailing dot) together with the whitespace run before it. -/
def stripLegalSuffixCI (suf : List Char) (m : List Char) : List Char :=
  let strip (k : Nat) : List Char :=
    let r := m.reverse.drop k
    match r with
    | c :: _ => if isWsC c then (r.dropWhile isWsC).reverse else m
    | [] => m
  if endsWithL (upL m) (upL suf ++ ['.']) then strip (suf.length + 1)
  else if endsWithL (upL m) (upL suf) then strip suf.length
  else m

/-- `cleanMerchantName` of `balance-based.js`. -/
def bbCleanMerchant (m0 : List Char) : List Char :=
  let m1 := trimL (collapseWs m0)
  let m2 := trimL (replaceAllL "[REDACTED]".data [] m1)
  let m3 := trimL (replaceAllL "[RECIPIENT]".data "E-Transfer Recipient".data m2)
  let m4 := trimL (replaceAllL "[REF]".data [] m3)
  let m5 := stripLegalSuffixCI "INC".data m4
  let m6 := stripLegalSuffixCI "LTD".data m5
  if containsSub m6 "UBER".data then "Uber".data
  else if containsSub m6 "SPOTIFY".data then "Spotify".data
  else if containsSub m6 "WEALTHSIMPLE".data then "Wealthsimple".data
  else if containsSub m6 "GOODLIFE".data then "GoodLife Fitness".data
  else if containsSub m6 "SPORTCHEK".data then "SportChek".data
  else if containsSub m6 "MARKS.COM".data then "Marks".data
  else if containsSub m6 "FOOD BASICS".data then "Food Basics".data
  else if containsSub m6 "STARBUCKS".data then "Starbucks".data
  else if containsSub m6 "REXALL".data then "Rexall Pharmacy".data
  else if m6.isEmpty then "Unknown Merchant".data
  else m6

/-- A transaction record as produced by the parsers. -/
structure Txn where
  date : List Char
  type : List Char
  merchant : List Char
  description : List Char
  amount : Int
  balance : Int
deriving Repr, DecidableEq

/-- Balance selection of `balance-based.js` lines 159-173: the last token
containing a comma, scanned from the right; otherwise `Math.max` of all the
parsed tokens. -/
def bbNewBalance (allNumbers : List (List Char)) : Int :=
  match allNumbers.reverse.find? hasComma with
  | some tok => parseCents tok
  | none =>
    match allNumbers.map parseCents with
    | [] => 0
    | n :: ns => ns.foldl max n

/-- The keyword credit/debit match of `balance-based.js` line 184
(`/REVERSAL|DEPOSIT|E-TRANSFER.*sent|e-Transfer.*sent|Misc Payment/i`);
the source computes it but never reads it. -/
def keywordCreditMatch (line : List Char) : Bool :=
  containsSubCI line "REVERSAL".data ||
  containsSubCI line "DEPOSIT".data ||
  containsInOrderCI line "E-TRANSFER".data "sent".data ||
  containsInOrderCI line "e-Transfer".data "sent".data ||
  containsSubCI line "Misc Payment".data

/-- `parseTransactionLine` of `balance-based.js`.  `rest` is the suffix of
`allLines` beginning at `currentIndex` (so `rest.get? 1` is
`allLines[currentIndex+1]` and `rest.take 3` is
`allLines.slice(currentIndex, currentIndex+3)`). -/
def bbParseTransactionLine (line date : List Char) (rest : List (List Char))
    (previousBalance : Option Int) (bank : List Char) : Option Txn :=
  if isBalanceOnlyLine line then none
  else if containsSub line "CORRECTION".data then none
  else if !bbIsTransaction line then none
  else
    let merchant := bbMerchant ((rest.get? 1).map trimL)
    let searchText := joinCh ' ' (rest.take 3)
    let allNumbers := tokensAux searchText
    if allNumbers.isEmpty then none
    else
      let currentBalance := bbNewBalance allNumbers
      match previousBalance with
      | none => none
      | some p =>
        let amount := p - currentBalance
        let _isCredit := keywordCreditMatch line
        some { date := date
               type := if amount < 0 then "credit".data else "debit".data
               merchant := bbCleanMerchant merchant
               description := trimL (line.take 50)
               amount := amount
               balance := currentBalance }

/-- The per-line date update of `parseTransactions`
(`balance-based.js` lines 80-94). -/
def bbNewDate (bank year line : List Char) (currentDate : Option (List Char)) :
    Option (List Char) :=
  if bank = "cibc".data then
    match cibcDateMatch line with
    | some (m, d) => some (convertToISO bbMonths (m ++ ' ' :: d) year)
    | none => currentDate
  else if bank = "rbc".data then
    match rbcDateMatch line with
    | some (d, m) => some (convertToISO bbMonths (m ++ ' ' :: d) year)
    | none => currentDate
  else currentDate

/-- The scan loop of `parseTransactions` (`balance-based.js` lines 63-105),
written structurally on the remaining lines. -/
def bbLoop (bank year : List Char) :
    List (List Char) → Option (List Char) → Option Int → List Txn
  | [], _, _ => []
  | l0 :: rest, currentDate, previousBalance =>
    let line := trimL l0
    if bbIsJunk line then bbLoop bank year rest currentDate previousBalance
    else
      match bbNewDate bank year line currentDate with
      | none => bbLoop bank year rest none previousBalance
      | some d =>
        match bbParseTransactionLine line d (l0 :: rest) previousBalance bank with
        | some t => t :: bbLoop bank year rest (some d) (some t.balance)
        | none => bbLoop bank year rest (some d) previousBalance

/-- The opening-balance seed regex
`/(?:Your\s+)?[Oo]pening balance[^\$]*\$?([\d,]+\.\d{2})/i`: capture
extraction at one candidate start position.  `[^\$]*` is greedy, so cut
positions are tried from the longest dollar-free stretch downwards, and
`\$?` prefers consuming a dollar sign. -/
def openingCaptureAt (s : List Char) : Option (List Char) :=
  let attempt (afterLabel : List Char) : Option (List Char) :=
    let seg := afterLabel.takeWhile (fun c => !(c = '$'))
    (List.range (seg.length + 1)).reverse.findSome? fun k =>
      let rest := afterLabel.drop k
      match rest with
      | '$' :: r2 => tokenAt r2
      | _ => tokenAt rest
  if prefixAtCI "your".data s then
    let r := s.drop 4
    let ws := r.takeWhile isWsC
    if !ws.isEmpty && prefixAtCI "opening balance".data (r.dropWhile isWsC) then
      attempt ((r.dropWhile isWsC).drop 15)
    else none
  else if prefixAtCI "opening balance".data s then
    attempt (s.drop 15)
  else none

/-- Leftmost-match scan for the opening-balance regex over the whole text. -/
def openingBalanceCents : List Char → Option Int
  | [] => none
  | c :: cs =>
    match openingCaptureAt (c :: cs) with
    | some tok => some (parseCents tok)
    | none => openingBalanceCents cs

/-- `parseTransactions(text, year, bank)` of `balance-based.js`. -/
def bbParseTransactions (text year bank : List Char) : List Txn :=
  bbLoop bank year (splitCh '\n' text) none (openingBalanceCents text)

/-! ## Properties of the balance-based parser (claims C1, C10) -/

/-- Balance selection as worded by the spec: the rightmost collected token
containing a thousands separator or, if no token contains a comma, the
numerically largest token. -/
def specNewBalance (toks : List (List Char)) : Option Int :=
  match (toks.filter hasComma).getLast? with
  | some t => some (parseCents t)
  | none => (toks.map parseCents).max?

theorem find?_reverse_eq_getLast?_filter {α : Type} (p : α → Bool)
    (l : List α) : l.reverse.find? p = (l.filter p).getLast? := by
  induction l with
  | nil => rfl
  | cons a l ih =>
    rw [List.reverse_cons, List.find?_append, ih, List.filter_cons]
    by_cases hpa : p a = true
    · rw [if_pos hpa, List.find?_singleton, if_pos hpa, List.getLast?_cons]
      cases h : (List.filter p l).getLast? <;> simp [Option.or]
    · rw [if_neg hpa, List.find?_singleton, if_neg hpa, Option.or_none]

/-- The source's rightward scan plus `Math.max` fallback computes exactly
the spec's selection, on a nonempty token list. -/
theorem specNewBalance_eq_bbNewBalance (toks : List (List Char))
    (h : toks ≠ []) : specNewBalance toks = some (bbNewBalance toks) := by
  unfold specNewBalance bbNewBalance
  rw [find?_reverse_eq_getLast?_filter]
  cases hl : (toks.filter hasComma).getLast? with
  | some t => rfl
  | none =>
    cases toks with
    | nil => exact absurd rfl h
    | cons t ts => rfl

/-- Anatomy of a successful `bbParseTransactionLine` call: the previous
balance must be present, the balance is the selected token value, the
amount is the balance delta, and the type is determined by its sign. -/
theorem bbParseTransactionLine_some (line date : List Char)
    (rest : List (List Char)) (prev : Option Int) (bank : List Char) (t : Txn)
    (h : bbParseTransactionLine line date rest prev bank = some t) :
    ∃ p, prev = some p ∧
      tokensAux (joinCh ' ' (rest.take 3)) ≠ [] ∧
      t.balance = bbNewBalance (tokensAux (joinCh ' ' (rest.take 3))) ∧
      t.amount = p - t.balance ∧
      t.type = (if t.amount < 0 then "credit".data else "debit".data) ∧
      t.date = date := by
  unfold bbParseTransactionLine at h
  split at h
  · exact absurd h (by simp)
  split at h
  · exact absurd h (by simp)
  split at h
  · exact absurd h (by simp)
  dsimp only at h
  split at h
  · exact absurd h (by simp)
  next hne =>
  split at h
  · exact absurd h (by simp)
  next p =>
  refine ⟨p, rfl, ?_, ?_⟩
  · intro hnil
    rw [List.isEmpty_iff] at hne
    exact absurd hnil hne
  · obtain rfl : Txn.mk date
        (if p - bbNewBalance (tokensAux (joinCh ' ' (rest.take 3))) < 0 then
          "credit".data else "debit".data)
        (bbCleanMerchant (bbMerchant ((rest.get? 1).map trimL)))
        (trimL (line.take 50))
        (p - bbNewBalance (tokensAux (joinCh ' ' (rest.take 3))))
        (bbNewBalance (tokensAux (joinCh ' ' (rest.take 3)))) = t :=
      Option.some.inj h
    exact ⟨rfl, rfl, rfl, rfl⟩

/-- Adjacent emitted transactions are linked by
`amount = previous balance − balance`. -/
def bbChainRel (a b : Txn) : Prop := b.amount = a.balance - b.balance

theorem bbLoop_chain (bank year : List Char) (lines : List (List Char))
    (cd : Option (List Char)) (prev : Option Int) :
    List.Chain' bbChainRel (bbLoop bank year lines cd prev) ∧
      (∀ t ts, bbLoop bank year lines cd prev = t :: ts →
        ∃ p, prev = some p ∧ t.amount = p - t.balance) := by
  induction lines generalizing cd prev with
  | nil => exact ⟨List.chain'_nil, fun t ts h => by simp [bbLoop] at h⟩
  | cons l0 rest ih =>
    unfold bbLoop
    by_cases hj : bbIsJunk (trimL l0) = true
    · rw [if_pos hj]
      exact ih cd prev
    rw [if_neg hj]
    cases hnd : bbNewDate bank year (trimL l0) cd with
    | none => exact ih none prev
    | some d =>
      dsimp only
      cases hp : bbParseTransactionLine (trimL l0) d (l0 :: rest) prev bank with
      | none => exact ih (some d) prev
      | some t =>
        obtain ⟨p, hprev, -, -, hamt, -, -⟩ :=
          bbParseTransactionLine_some _ _ _ _ _ _ hp
        constructor
        · apply List.chain'_cons'.mpr
          refine ⟨?_, (ih (some d) (some t.balance)).1⟩
          intro u hu
          have hcons : ∃ us, bbLoop bank year rest (some d) (some t.balance) =
              u :: us := by
            cases hh : bbLoop bank year rest (some d) (some t.balance) with
            | nil => rw [hh] at hu; exact absurd hu (by simp)
            | cons a as =>
              rw [hh] at hu
              exact ⟨as, by rw [show a = u from by simpa using hu]⟩
          obtain ⟨us, hus⟩ := hcons
          obtain ⟨q, hq, hqa⟩ := (ih (some d) (some t.balance)).2 u us hus
          exact hqa.trans (by rw [Option.some.inj hq])
        · intro u us hu
          obtain ⟨rfl, -⟩ := List.cons.inj hu
          exact ⟨p, hprev, hamt⟩

/-- C1: for every transaction line accepted by the balance-reconciliation
parser, the new balance is the rightmost comma-bearing token among the
decimal tokens collected from that line and the following up-to-2 lines
(the numerically largest token if none contains a comma), the amount is
`previous_balance − new_balance` rather than a figure read from the text,
and the previous balance seen by the next emitted transaction is this
transaction's new balance (seeded from the statement's opening balance). -/
theorem claim_C1_balance_selection :
    (∀ (line date : List Char) (rest : List (List Char)) (prev : Option Int)
        (bank : List Char) (t : Txn),
        bbParseTransactionLine line date rest prev bank = some t →
        specNewBalance (tokensAux (joinCh ' ' (rest.take 3))) = some t.balance ∧
          ∃ p, prev = some p ∧ t.amount = p - t.balance) ∧
    (∀ text year bank : List Char,
        List.Chain' bbChainRel (bbParseTransactions text year bank)) ∧
    (∀ (text year bank : List Char) (t : Txn) (ts : List Txn),
        bbParseTransactions text year bank = t :: ts →
        ∃ p, openingBalanceCents text = some p ∧ t.amount = p - t.balance) := by
  refine ⟨?_, ?_, ?_⟩
  · intro line date rest prev bank t h
    obtain ⟨p, hp, hne, hbal, hamt, -, -⟩ :=
      bbParseTransactionLine_some _ _ _ _ _ _ h
    exact ⟨by rw [specNewBalance_eq_bbNewBalance _ hne, hbal], p, hp, hamt⟩
  · intro text year bank
    exact (bbLoop_chain bank year (splitCh '\n' text) none
      (openingBalanceCents text)).1
  · intro text year bank t ts h
    exact (bbLoop_chain bank year (splitCh '\n' text) none
      (openingBalanceCents text)).2 t ts h

theorem claim_C1_witness :
    bbParseTransactionLine "E-TRANSFER".data "2025-11-03".data
        ["E-TRANSFER".data, "SHOP".data, "975.00".data] (some 100000)
        "cibc".data =
      some ⟨"2025-11-03".data, "debit".data, "SHOP".data, "E-TRANSFER".data,
        2500, 97500⟩ ∧
    (specNewBalance (tokensAux (joinCh ' '
        (["E-TRANSFER".data, "SHOP".data, "975.00".data].take 3))) =
        some 97500 ∧
      ∃ p, (some 100000 : Option Int) = some p ∧ (2500 : Int) = p - 97500) := by
  have h : bbParseTransactionLine "E-TRANSFER".data "2025-11-03".data
      ["E-TRANSFER".data, "SHOP".data, "975.00".data] (some 100000)
      "cibc".data =
      some ⟨"2025-11-03".data, "debit".data, "SHOP".data, "E-TRANSFER".data,
        2500, 97500⟩ := by rfl
  exact ⟨h, claim_C1_balance_selection.1 _ _ _ _ _ _ h⟩

/-- C10: the declared type of every transaction emitted by the
balance-reconciliation parser is `credit` exactly when the balance delta is
negative and `debit` otherwise; the keyword-based credit match
(`keywordCreditMatch`) is computed by the source but has no effect — a line
matching the DEPOSIT credit keyword with a positive delta is still labelled
`debit`. -/
theorem claim_C10_type_from_sign :
    (∀ (line date : List Char) (rest : List (List Char)) (prev : Option Int)
        (bank : List Char) (t : Txn),
        bbParseTransactionLine line date rest prev bank = some t →
        t.type = (if t.amount < 0 then "credit".data else "debit".data)) ∧
    (keywordCreditMatch "DEPOSIT".data = true ∧
      (bbParseTransactionLine "DEPOSIT".data "2025-11-03".data
          ["DEPOSIT".data, "SHOP".data, "90.00".data] (some 10000)
          "cibc".data).map Txn.type = some "debit".data) := by
  refine ⟨?_, by decide, by rfl⟩
  intro line date rest prev bank t h
  obtain ⟨-, -, -, -, -, hty, -⟩ := bbParseTransactionLine_some _ _ _ _ _ _ h
  exact hty

theorem claim_C10_witness :
    bbParseTransactionLine "DEPOSIT".data "2025-11-03".data
        ["DEPOSIT".data, "SHOP".data, "90.00".data] (some 10000)
        "cibc".data =
      some ⟨"2025-11-03".data, "debit".data, "SHOP".data, "DEPOSIT".data,
        1000, 9000⟩ ∧
    ("debit".data : List Char) =
      (if (1000 : Int) < 0 then "credit".data else "debit".data) := by
  have h : bbParseTransactionLine "DEPOSIT".data "2025-11-03".data
      ["DEPOSIT".data, "SHOP".data, "90.00".data] (some 10000)
      "cibc".data =
      some ⟨"2025-11-03".data, "debit".data, "SHOP".data, "DEPOSIT".data,
        1000, 9000⟩ := by rfl
  exact ⟨h, claim_C10_type_from_sign.1 _ _ _ _ _ _ h⟩

/-! ## Round-trip infrastructure (claim C2): synthetic statements built from
an opening balance and a list of signed amounts -/

theorem prefixAt_of_append (n p t : List Char) (hlen : n.length ≤ p.length) :
    prefixAt n (p ++ t) = prefixAt n p := by
  induction n generalizing p with
  | nil => cases p <;> rfl
  | cons a n ih =>
    cases p with
    | nil => simp at hlen
    | cons b p =>
      simp only [List.cons_append, prefixAt, List.append_eq]
      rw [ih p (by simpa using hlen)]

theorem prefixAt_mem (n s : List Char) (h : prefixAt n s = true) :
    ∀ c ∈ n, c ∈ s := by
  induction n generalizing s with
  | nil => simp
  | cons a n ih =>
    cases s with
    | nil => simp [prefixAt] at h
    | cons b s =>
      simp only [prefixAt, Bool.and_eq_true, decide_eq_true_eq] at h
      intro c hc
      rcases List.mem_cons.mp hc with rfl | hc
      · exact h.1 ▸ List.mem_cons_self _ _
      · exact List.mem_cons_of_mem _ (ih s h.2 c hc)

theorem containsSub_chars (hay needle : List Char)
    (h : containsSub hay needle = true) : ∀ c ∈ needle, c ∈ hay := by
  induction hay with
  | nil =>
    simp only [containsSub] at h
    cases needle with
    | nil => simp
    | cons a n => simp [prefixAt] at h
  | cons b hs ih =>
    simp only [containsSub, Bool.or_eq_true] at h
    rcases h with h | h
    · exact prefixAt_mem _ _ h
    · exact fun c hc => List.mem_cons_of_mem _ (ih h c hc)

theorem containsSub_of_prefixAt (s n : List Char) (h : prefixAt n s = true)
    (hs : s ≠ []) : containsSub s n = true := by
  cases s with
  | nil => exact absurd rfl hs
  | cons c cs => simp [containsSub, h]

theorem dropWhile_eq_self_of_all {p : Char → Bool} (l : List Char)
    (h : ∀ c ∈ l, p c = false) : l.dropWhile p = l := by
  cases l with
  | nil => rfl
  | cons c cs => simp [List.dropWhile, h c (List.mem_cons_self _ _)]

theorem fmtCents_chars (n : Nat) :
    ∀ c ∈ fmtCents n, isDigitC c = true ∨ c = '.' := by
  intro c hc
  unfold fmtCents at hc
  rcases List.mem_append.mp hc with hc | hc
  · exact Or.inl (natChars_all_digit _ c hc)
  · rcases List.mem_cons.mp hc with rfl | hc
    · exact Or.inr rfl
    · exact Or.inl (pad2_all_digit _ (Nat.mod_lt _ (by norm_num)) c hc)

theorem fmtCents_not_ws (n : Nat) : ∀ c ∈ fmtCents n, isWsC c = false := by
  intro c hc
  rcases fmtCents_chars n c hc with h | rfl
  · cases hw : isWsC c
    · rfl
    · exfalso
      simp only [isWsC, Bool.or_eq_true, decide_eq_true_eq] at hw
      rcases hw with ((rfl | rfl) | rfl) | rfl <;> simp [isDigitC] at h
  · rfl

theorem fmtCents_ne_newline (n : Nat) : '\n' ∉ fmtCents n := by
  intro h
  rcases fmtCents_chars n _ h with hd | hd
  · simp [isDigitC] at hd
  · simp at hd

theorem fmtCents_cons (n : Nat) :
    ∃ c t, fmtCents n = c :: t ∧ isDigitC c = true := by
  unfold fmtCents
  cases h : natChars (n / 100) with
  | nil => exact absurd h (natChars_ne_nil _)
  | cons c t =>
    refine ⟨c, t ++ '.' :: pad2 (n % 100), by simp, ?_⟩
    exact natChars_all_digit _ c (h ▸ List.mem_cons_self _ _)

theorem trimL_eq_self (s : List Char) (h : ∀ c ∈ s, isWsC c = false) :
    trimL s = s := by
  unfold trimL
  rw [dropWhile_eq_self_of_all s h,
    dropWhile_eq_self_of_all s.reverse (fun c hc => h c (List.mem_reverse.mp hc)),
    List.reverse_reverse]

theorem tokensF_append_nonnum (p : List Char) (f : Nat) (s : List Char)
    (h : ∀ c ∈ p, isNumC c = false) :
    tokensF (f + p.length) (p ++ s) = tokensF f s := by
  induction p with
  | nil => rfl
  | cons c p ih =>
    show tokensF (f + (p.length + 1)) (c :: (p ++ s)) = tokensF f s
    have : f + (p.length + 1) = (f + p.length) + 1 := rfl
    rw [this]
    simp only [tokensF, h c (List.mem_cons_self _ _), Bool.false_eq_true,
      if_false]
    exact ih (fun x hx => h x (List.mem_cons_of_mem _ hx))

theorem tokensAux_append_nonnum (p s : List Char)
    (h : ∀ c ∈ p, isNumC c = false) : tokensAux (p ++ s) = tokensAux s := by
  unfold tokensAux
  rw [List.length_append, Nat.add_comm, tokensF_append_nonnum p s.length s h]

/-- `tokenAt` on a rendered amount followed by anything non-numeric-looking
at the boundary: the token is exactly the rendered amount. -/
theorem tokenAt_fmt_append (m : Nat) (tail : List Char) :
    tokenAt (fmtCents m ++ tail) = some (fmtCents m) := by
  unfold tokenAt fmtCents
  have hip := natChars_all_digit (m / 100)
  have hnum : ∀ c ∈ natChars (m / 100), isNumC c = true :=
    fun c hc => isDigitC_isNumC c (hip c hc)
  have hdot : isNumC '.' = false := by simp [isNumC, isDigitC]
  have harr : natChars (m / 100) ++ '.' :: pad2 (m % 100) ++ tail =
      natChars (m / 100) ++ '.' :: (pad2 (m % 100) ++ tail) := by
    simp
  rw [harr, takeWhile_append_all _ _ _ hnum hdot,
    dropWhile_append_all _ _ _ hnum hdot]
  have hne : (natChars (m / 100)).isEmpty = false := by
    cases h : natChars (m / 100) with
    | nil => exact absurd h (natChars_ne_nil _)
    | cons c t => rfl
  simp only [hne, Bool.false_eq_true, if_false, pad2, List.cons_append,
    digitChar_isDigitC _ (show m % 100 / 10 < 10 by omega),
    digitChar_isDigitC _ (Nat.mod_lt _ (by norm_num : (0:Nat) < 10)),
    Bool.and_self, if_true]

theorem isBalanceOnlyLine_fmt (m : Nat) :
    isBalanceOnlyLine (fmtCents m) = true := by
  unfold isBalanceOnlyLine fmtCents
  have hip := natChars_all_digit (m / 100)
  have hdot : isDigitC '.' = false := by simp [isDigitC]
  rw [takeWhile_append_all _ _ _ hip hdot, dropWhile_append_all _ _ _ hip hdot]
  have hne : (natChars (m / 100)).isEmpty = false := by
    cases h : natChars (m / 100) with
    | nil => exact absurd h (natChars_ne_nil _)
    | cons c t => rfl
  simp [hne, pad2, digitChar_isDigitC _ (show m % 100 / 10 < 10 by omega),
    digitChar_isDigitC _ (Nat.mod_lt _ (by norm_num : (0:Nat) < 10))]

theorem prefixAt_false_of_ne (a : Char) (n : List Char) (c : Char)
    (t : List Char) (h : ¬(a = c)) : prefixAt (a :: n) (c :: t) = false := by
  simp [prefixAt, h]

theorem findSome?_none_of_all {α β : Type} (f : α → Option β) (l : List α)
    (h : ∀ a ∈ l, f a = none) : l.findSome? f = none := by
  induction l with
  | nil => rfl
  | cons a l ih =>
    rw [List.findSome?_cons, h a (List.mem_cons_self _ _)]
    exact ih (fun x hx => h x (List.mem_cons_of_mem _ hx))

theorem cibcDateMatch_fmt (m : Nat) : cibcDateMatch (fmtCents m) = none := by
  obtain ⟨c, t, hct, hd⟩ := fmtCents_cons m
  rw [hct]
  have hne : ∀ a : Char, isDigitC a = false → ¬(a = c) := by
    intro a ha e
    rw [e, hd] at ha
    simp at ha
  unfold cibcDateMatch
  apply findSome?_none_of_all
  intro name hm
  simp only [cibcMonthNames, List.mem_cons, List.not_mem_nil, or_false] at hm
  rcases hm with rfl | rfl | rfl | rfl | rfl | rfl | rfl | rfl | rfl | rfl |
    rfl | rfl <;>
    · rw [show (_ : List Char) = _ :: _ from rfl,
        prefixAt_false_of_ne _ _ c t (hne _ (by decide))]
      simp

theorem bbIsJunk_fmt (m : Nat) : bbIsJunk (fmtCents m) = false := by
  have hnc : ∀ (needle : List Char) (a : Char), a ∈ needle →
      isDigitC a = false → ¬(a = '.') →
      containsSub (fmtCents m) needle = false := by
    intro needle a ha had hadot
    cases h : containsSub (fmtCents m) needle
    · rfl
    · exfalso
      rcases fmtCents_chars m a (containsSub_chars _ _ h a ha) with hx | hx
      · rw [hx] at had; simp at had
      · exact hadot hx
  have hne : (fmtCents m).isEmpty = false := by
    obtain ⟨c, t, hct, -⟩ := fmtCents_cons m
    rw [hct]; rfl
  unfold bbIsJunk
  rw [hne,
    hnc "Transaction details".data 'T' (by decide) (by decide) (by decide),
    hnc "Details of your account".data 'D' (by decide) (by decide) (by decide),
    hnc "Page ".data 'P' (by decide) (by decide) (by decide),
    hnc "continued".data 'c' (by decide) (by decide) (by decide),
    hnc "DateDescription".data 'D' (by decide) (by decide) (by decide),
    hnc "Balance forward".data 'B' (by decide) (by decide) (by decide),
    hnc "Opening balance".data 'O' (by decide) (by decide) (by decide),
    hnc "Closing balance".data 'C' (by decide) (by decide) (by decide),
    hnc "Account Statement".data 'A' (by decide) (by decide) (by decide)]
  rfl

theorem hasComma_false_find (m : Nat) :
    List.find? hasComma [fmtCents m].reverse = none := by
  simp [List.find?, hasComma_fmtCents]

theorem bbNewBalance_single_fmt (m : Nat) :
    bbNewBalance [fmtCents m] = (m : Int) := by
  unfold bbNewBalance
  rw [hasComma_false_find]
  simp [parseCents_fmtCents]

/-- One synthetic statement block per amount: a CIBC date line, a
transaction-keyword line, a merchant line, and the running balance
`B_i = B_{i-1} − a_i` rendered as plain decimal text. -/
def bbBlocks : Int → List Int → List (List Char)
  | _, [] => []
  | b, a :: as =>
    "Nov 3".data :: "E-TRANSFER".data :: "SHOP".data ::
      fmtCents (b - a).toNat :: bbBlocks (b - a) as

/-- Synthetic statement: an opening-balance header line followed by the
blocks, joined with newlines. -/
def mkStatement (b0 : Nat) (amounts : List Int) : List Char :=
  joinCh '\n' (("Opening balance $".data ++ fmtCents b0) :: bbBlocks (b0 : Int) amounts)

/-- All running balances `B_i` stay nonnegative (so that each is
representable in the statement's unsigned decimal format). -/
def runBalancesOk : Int → List Int → Bool
  | _, [] => true
  | b, a :: as => decide (0 ≤ b - a) && runBalancesOk (b - a) as

theorem bbBlocks_no_newline (b : Int) (as : List Int) :
    ∀ l ∈ bbBlocks b as, '\n' ∉ l := by
  induction as generalizing b with
  | nil => simp [bbBlocks]
  | cons a as ih =>
    intro l hl
    simp only [bbBlocks, List.mem_cons] at hl
    rcases hl with rfl | rfl | rfl | rfl | hl
    · decide
    · decide
    · decide
    · exact fmtCents_ne_newline _
    · exact ih (b - a) l hl

/-- Capture of the opening-balance regex on the synthetic header. -/
theorem openingCaptureAt_mk (b0 : Nat) (tail : List Char) :
    openingCaptureAt ("Opening balance $".data ++ (fmtCents b0 ++ tail)) =
      some (fmtCents b0) := by
  have h1 : prefixAtCI "your".data
      ("Opening balance $".data ++ (fmtCents b0 ++ tail)) = false := by
    unfold prefixAtCI upL
    rw [List.map_append, prefixAt_of_append _ _ _ (by simp)]
    decide
  have h2 : prefixAtCI "opening balance".data
      ("Opening balance $".data ++ (fmtCents b0 ++ tail)) = true := by
    unfold prefixAtCI upL
    rw [List.map_append, prefixAt_of_append _ _ _ (by simp)]
    decide
  have hdrop : ("Opening balance $".data ++ (fmtCents b0 ++ tail)).drop 15 =
      ' ' :: '$' :: (fmtCents b0 ++ tail) := rfl
  unfold openingCaptureAt
  simp only [h1, Bool.false_eq_true, if_false, h2, if_true, hdrop]
  have hseg : (' ' :: '$' :: (fmtCents b0 ++ tail)).takeWhile
      (fun c => !(c = '$')) = [' '] := rfl
  rw [hseg]
  show (List.range 2).reverse.findSome? _ = _
  rw [show (List.range 2).reverse = [1, 0] from rfl]
  rw [List.findSome?_cons]
  have : (' ' :: '$' :: (fmtCents b0 ++ tail)).drop 1 =
      '$' :: (fmtCents b0 ++ tail) := rfl
  rw [this]
  simp only [tokenAt_fmt_append]

/-- Seeding of `previousBalance` from the synthetic header. -/
theorem openingBalanceCents_mk (b0 : Nat) (tail : List Char) :
    openingBalanceCents ("Opening balance $".data ++ (fmtCents b0 ++ tail)) =
      some (b0 : Int) := by
  have key := openingCaptureAt_mk b0 tail
  have hexp : "Opening balance $".data ++ (fmtCents b0 ++ tail) =
      'O' :: ("pening balance $".data ++ (fmtCents b0 ++ tail)) := rfl
  rw [hexp] at key ⊢
  simp only [openingBalanceCents, key, parseCents_fmtCents]

/-- Shape of a successful `parseTransactionLine` run, with the three line
tests discharged as hypotheses. -/
theorem bbPTL_emit_shape (line d : List Char) (rest : List (List Char))
    (b : Int) (bank : List Char) (m : Nat)
    (h1 : isBalanceOnlyLine line = false)
    (h2 : containsSub line "CORRECTION".data = false)
    (h3 : bbIsTransaction line = true)
    (h4 : tokensAux (joinCh ' ' (rest.take 3)) = [fmtCents m]) :
    bbParseTransactionLine line d rest (some b) bank =
      some ⟨d, (if b - (m : Int) < 0 then "credit".data else "debit".data),
        bbCleanMerchant (bbMerchant ((rest.get? 1).map trimL)),
        trimL (line.take 50), b - (m : Int), (m : Int)⟩ := by
  unfold bbParseTransactionLine
  dsimp only
  rw [h1, h2, h3, h4]
  simp only [Bool.false_eq_true, if_false, Bool.not_true, List.isEmpty_cons,
    bbNewBalance_single_fmt]

theorem bbPTL_etransfer (d : List Char) (m : Nat) (rest' : List (List Char))
    (b : Int) :
    bbParseTransactionLine "E-TRANSFER".data d
      ("E-TRANSFER".data :: "SHOP".data :: fmtCents m :: rest')
      (some b) "cibc".data =
    some ⟨d, (if b - (m : Int) < 0 then "credit".data else "debit".data),
      "SHOP".data, "E-TRANSFER".data, b - (m : Int), (m : Int)⟩ := by
  rw [bbPTL_emit_shape "E-TRANSFER".data d _ b "cibc".data m rfl rfl rfl ?_]
  · rw [show (("E-TRANSFER".data :: "SHOP".data :: fmtCents m ::
        rest').get? 1).map trimL = some "SHOP".data from rfl]
    rw [show bbCleanMerchant (bbMerchant (some "SHOP".data)) =
      "SHOP".data from rfl]
    rw [show trimL ("E-TRANSFER".data.take 50) = "E-TRANSFER".data from rfl]
  · rw [show joinCh ' '
        (("E-TRANSFER".data :: "SHOP".data :: fmtCents m :: rest').take 3) =
        "E-TRANSFER SHOP ".data ++ fmtCents m from rfl]
    rw [tokensAux_append_nonnum _ _ (by decide), tokensAux_fmtCents]

/-- The merchant line of a synthetic block opens no transaction. -/
theorem bbPTL_shop (d : List Char) (rest : List (List Char))
    (prev : Option Int) :
    bbParseTransactionLine "SHOP".data d rest prev "cibc".data = none := rfl

/-- The date line of a synthetic block opens no transaction. -/
theorem bbPTL_nov (d : List Char) (rest : List (List Char))
    (prev : Option Int) :
    bbParseTransactionLine "Nov 3".data d rest prev "cibc".data = none := rfl

/-- A rendered-balance line opens no transaction (it matches the
balance-only skip regex). -/
theorem bbPTL_fmt (m : Nat) (d : List Char) (rest : List (List Char))
    (prev : Option Int) :
    bbParseTransactionLine (fmtCents m) d rest prev "cibc".data = none := by
  unfold bbParseTransactionLine
  rw [isBalanceOnlyLine_fmt]
  rfl

theorem bbNewDate_fmt (year : List Char) (m : Nat) (cd : Option (List Char)) :
    bbNewDate "cibc".data year (fmtCents m) cd = cd := by
  unfold bbNewDate
  rw [if_pos rfl, cibcDateMatch_fmt]

theorem trimL_append_ends (A B : List Char) (c : Char) (t : List Char)
    (hA : A = c :: t) (hc : isWsC c = false)
    (hB : ∀ x ∈ B, isWsC x = false) (hBne : B ≠ []) :
    trimL (A ++ B) = A ++ B := by
  subst hA
  unfold trimL
  have h1 : ((c :: t) ++ B).dropWhile isWsC = (c :: t) ++ B := by
    simp [List.dropWhile, hc]
  rw [h1]
  cases hB' : B.reverse with
  | nil => exact absurd (by simpa using congrArg List.reverse hB') hBne
  | cons dd ss =>
    have hdd : dd ∈ B := by
      have : dd ∈ B.reverse := hB' ▸ List.mem_cons_self _ _
      exact List.mem_reverse.mp this
    have h2 : ((c :: t) ++ B).reverse = dd :: (ss ++ (c :: t).reverse) := by
      rw [List.reverse_append, hB']
      simp
    rw [h2]
    have h3 : (dd :: (ss ++ (c :: t).reverse)).dropWhile isWsC =
        dd :: (ss ++ (c :: t).reverse) := by
      simp [List.dropWhile, hB dd hdd]
    rw [h3, ← h2, List.reverse_reverse]

theorem trimL_opening (b0 : Nat) :
    trimL ("Opening balance $".data ++ fmtCents b0) =
      "Opening balance $".data ++ fmtCents b0 := by
  apply trimL_append_ends _ _ 'O' ("pening balance $".data) rfl (by decide)
    (fmtCents_not_ws b0)
  obtain ⟨c, t, hct, -⟩ := fmtCents_cons b0
  rw [hct]
  simp

theorem bbIsJunk_opening (b0 : Nat) :
    bbIsJunk ("Opening balance $".data ++ fmtCents b0) = true := by
  have hpre : prefixAt "Opening balance".data
      ("Opening balance $".data ++ fmtCents b0) = true := by
    rw [prefixAt_of_append _ _ _ (by simp)]
    decide
  have hcs : containsSub ("Opening balance $".data ++ fmtCents b0)
      "Opening balance".data = true :=
    containsSub_of_prefixAt _ _ hpre (by simp)
  unfold bbIsJunk
  rw [hcs]
  simp

/-- Generic loop step: a line that opens no transaction advances the
date state and keeps everything else. -/
theorem bbLoop_skip (bank year l : List Char) (r : List (List Char))
    (cd : Option (List Char)) (d : List Char) (p : Option Int)
    (h1 : trimL l = l) (h2 : bbIsJunk l = false)
    (h3 : bbNewDate bank year l cd = some d)
    (h4 : bbParseTransactionLine l d (l :: r) p bank = none) :
    bbLoop bank year (l :: r) cd p = bbLoop bank year r (some d) p := by
  simp only [bbLoop, h1, h2, Bool.false_eq_true, if_false, h3, h4]

/-- Generic loop step: a line that opens a transaction emits it and seeds
the next previous balance with its balance. -/
theorem bbLoop_emit (bank year l : List Char) (r : List (List Char))
    (cd : Option (List Char)) (d : List Char) (p : Option Int) (t : Txn)
    (h1 : trimL l = l) (h2 : bbIsJunk l = false)
    (h3 : bbNewDate bank year l cd = some d)
    (h4 : bbParseTransactionLine l d (l :: r) p bank = some t) :
    bbLoop bank year (l :: r) cd p =
      t :: bbLoop bank year r (some d) (some t.balance) := by
  simp only [bbLoop, h1, h2, Bool.false_eq_true, if_false, h3, h4]

/-- The loop recovers the amounts from the block sequence, whatever the
incoming current-date state. -/
theorem bbLoop_blocks (year : List Char) (as : List Int) :
    ∀ (b : Int) (cd : Option (List Char)),
      runBalancesOk b as = true →
      (bbLoop "cibc".data year (bbBlocks b as) cd (some b)).map Txn.amount
        = as := by
  induction as with
  | nil => intro b cd _; rfl
  | cons a as ih =>
    intro b cd h
    obtain ⟨h0, hok⟩ : (0 ≤ b - a) ∧ runBalancesOk (b - a) as = true := by
      simpa [runBalancesOk] using h
    have hcast : ((b - a).toNat : Int) = b - a := Int.toNat_of_nonneg h0
    rw [show bbBlocks b (a :: as) =
      "Nov 3".data :: "E-TRANSFER".data :: "SHOP".data ::
        fmtCents (b - a).toNat :: bbBlocks (b - a) as from rfl]
    rw [bbLoop_skip "cibc".data year "Nov 3".data _ cd
      (year ++ "-11-03".data) (some b) rfl rfl rfl (bbPTL_nov _ _ _)]
    rw [bbLoop_emit "cibc".data year "E-TRANSFER".data _
      (some (year ++ "-11-03".data)) (year ++ "-11-03".data) (some b)
      ⟨year ++ "-11-03".data,
        (if b - ((b - a).toNat : Int) < 0 then "credit".data
          else "debit".data), "SHOP".data, "E-TRANSFER".data,
        b - ((b - a).toNat : Int), ((b - a).toNat : Int)⟩
      rfl rfl rfl (bbPTL_etransfer _ _ _ _)]
    rw [bbLoop_skip "cibc".data year "SHOP".data _
      (some (year ++ "-11-03".data)) (year ++ "-11-03".data) _
      rfl rfl rfl (bbPTL_shop _ _ _)]
    rw [bbLoop_skip "cibc".data year (fmtCents (b - a).toNat) _
      (some (year ++ "-11-03".data)) (year ++ "-11-03".data) _
      (trimL_eq_self _ (fmtCents_not_ws _)) (bbIsJunk_fmt _)
      (bbNewDate_fmt year _ _) (bbPTL_fmt _ _ _ _)]
    rw [List.map_cons]
    show (b - ((b - a).toNat : Int)) :: (bbLoop "cibc".data year
      (bbBlocks (b - a) as) (some (year ++ "-11-03".data))
      (some ((b - a).toNat : Int))).map Txn.amount = a :: as
    rw [hcast, show b - (b - a) = a by ring,
      ih (b - a) (some (year ++ "-11-03".data)) hok]

/-- C2: feeding the balance-reconciliation extractor a synthetic statement
whose transaction lines carry the running balances `B_i = B_{i-1} − a_i`
(kept nonnegative so each is representable) recovers every amount exactly,
for arbitrary sign patterns. -/
theorem claim_C2_roundtrip (b0 : Nat) (amounts : List Int) (year : List Char)
    (h : runBalancesOk (b0 : Int) amounts = true) :
    (bbParseTransactions (mkStatement b0 amounts) year "cibc".data).map
        Txn.amount = amounts ∧
      (bbParseTransactions (mkStatement b0 amounts) year
        "cibc".data).length = amounts.length := by
  have hmain : (bbParseTransactions (mkStatement b0 amounts) year
      "cibc".data).map Txn.amount = amounts := by
    unfold bbParseTransactions mkStatement
    have hsplit : splitCh '\n' (joinCh '\n'
        (("Opening balance $".data ++ fmtCents b0) ::
          bbBlocks (b0 : Int) amounts)) =
        ("Opening balance $".data ++ fmtCents b0) ::
          bbBlocks (b0 : Int) amounts := by
      apply splitCh_joinCh _ _ (by simp)
      intro l hl
      rcases List.mem_cons.mp hl with rfl | hl
      · intro hmem
        rcases List.mem_append.mp hmem with hc | hc
        · revert hc; decide
        · exact fmtCents_ne_newline _ hc
      · exact bbBlocks_no_newline _ _ l hl
    have hopen : openingBalanceCents (joinCh '\n'
        (("Opening balance $".data ++ fmtCents b0) ::
          bbBlocks (b0 : Int) amounts)) = some (b0 : Int) := by
      cases hb : bbBlocks (b0 : Int) amounts with
      | nil =>
        rw [show joinCh '\n' [("Opening balance $".data ++ fmtCents b0)] =
          "Opening balance $".data ++ fmtCents b0 from rfl]
        rw [show ("Opening balance $".data ++ fmtCents b0) =
          "Opening balance $".data ++ (fmtCents b0 ++ []) by simp]
        exact openingBalanceCents_mk b0 []
      | cons l2 ls =>
        rw [joinCh_cons_cons]
        rw [show ("Opening balance $".data ++ fmtCents b0) ++
            '\n' :: joinCh '\n' (l2 :: ls) =
          "Opening balance $".data ++
            (fmtCents b0 ++ ('\n' :: joinCh '\n' (l2 :: ls))) by simp]
        exact openingBalanceCents_mk b0 _
    rw [hsplit, hopen]
    rw [show ∀ r p, bbLoop "cibc".data year
          (("Opening balance $".data ++ fmtCents b0) :: r) none p =
        bbLoop "cibc".data year r none p from fun r p => by
      simp only [bbLoop]
      rw [trimL_opening, bbIsJunk_opening]
      simp]
    exact bbLoop_blocks year amounts (b0 : Int) none h
  refine ⟨hmain, ?_⟩
  have := congrArg List.length hmain
  simpa [List.length_map] using this

theorem claim_C2_witness :
    runBalancesOk ((1000 : Nat) : Int) [250, -100, 300] = true ∧
    ((bbParseTransactions (mkStatement 1000 [250, -100, 300]) "2025".data
        "cibc".data).map Txn.amount = [250, -100, 300] ∧
      (bbParseTransactions (mkStatement 1000 [250, -100, 300]) "2025".data
        "cibc".data).length = 3) :=
  ⟨by decide, claim_C2_roundtrip 1000 [250, -100, 300] "2025".data (by decide)⟩

/-! ## `utils/detectBank.js` (claim C5) -/

/-- RBC header predicate (`detectBank.js` lines 12-14); `&&` binds tighter
than `||` in JavaScript. -/
def rbcPred (h : List Char) : Bool :=
  containsSub h "Royal Bank of Canada".data ||
  (containsSub h "RBC".data && containsSub h "account statement".data) ||
  containsSub h "www.rbcroyalbank.com".data

/-- CIBC header predicate (lines 19-20). -/
def cibcPred (h : List Char) : Bool :=
  containsSub h "CIBC Account Statement".data ||
  (containsSub h "CIBC".data && containsSub h "Account Statement".data)

/-- TD header predicate (line 25). -/
def tdPred (h : List Char) : Bool := containsSub h "TD Canada Trust".data

/-- Scotiabank header predicate (line 30). -/
def scotiaPred (h : List Char) : Bool :=
  containsSub h "Scotiabank".data || containsSub h "Scotia".data

/-- BMO header predicate (line 35). -/
def bmoPred (h : List Char) : Bool :=
  containsSub h "BMO".data || containsSub h "Bank of Montreal".data

/-- The thrown message (line 39). -/
def unrecognizedIssuerMsg : List Char :=
  "Unable to detect bank from statement. Supported banks: CIBC, RBC".data

/-- The if-chain of `detectBank` applied to the 500-character header. -/
def detectFromHeader (header : List Char) : Except (List Char) (List Char) :=
  if rbcPred header then .ok "rbc".data
  else if cibcPred header then .ok "cibc".data
  else if tdPred header then .ok "td".data
  else if scotiaPred header then .ok "scotiabank".data
  else if bmoPred header then .ok "bmo".data
  else .error unrecognizedIssuerMsg

/-- `detectBank(text)`: inspects `text.substring(0, 500)`; a thrown
`Error` is modelled as `Except.error`. -/
def detectBank (text : List Char) : Except (List Char) (List Char) :=
  detectFromHeader (text.take 500)

/-- The issuer profiles with their priority order, as data. -/
def bankProfiles : List (List Char × (List Char → Bool)) :=
  [("rbc".data, rbcPred), ("cibc".data, cibcPred), ("td".data, tdPred),
   ("scotiabank".data, scotiaPred), ("bmo".data, bmoPred)]

/-- C5: `detect` reads only the first 500 characters (inputs agreeing on
that prefix classify identically), tries the issuer profiles' literal
substring predicates in their fixed priority order with the first match
winning, and throws the unrecognized-issuer error exactly when no profile
predicate matches the prefix. -/
theorem claim_C5_detect :
    (∀ t1 t2 : List Char, t1.take 500 = t2.take 500 →
      detectBank t1 = detectBank t2) ∧
    (∀ t : List Char,
      detectBank t =
        match bankProfiles.find? (fun pr => pr.2 (t.take 500)) with
        | some pr => .ok pr.1
        | none => .error unrecognizedIssuerMsg) ∧
    (∀ t : List Char,
      detectBank t = .error unrecognizedIssuerMsg ↔
        ∀ pr ∈ bankProfiles, pr.2 (t.take 500) = false) := by
  have hfind : ∀ t : List Char,
      detectBank t =
        match bankProfiles.find? (fun pr => pr.2 (t.take 500)) with
        | some pr => .ok pr.1
        | none => .error unrecognizedIssuerMsg := by
    intro t
    unfold detectBank detectFromHeader bankProfiles
    by_cases h1 : rbcPred (t.take 500) = true
    · simp [List.find?_cons, h1]
    · have h1' : rbcPred (t.take 500) = false := by simpa using h1
      rw [if_neg (by simpa using h1)]
      by_cases h2 : cibcPred (t.take 500) = true
      · simp [List.find?_cons, h1', h2]
      · have h2' : cibcPred (t.take 500) = false := by simpa using h2
        rw [if_neg (by simpa using h2)]
        by_cases h3 : tdPred (t.take 500) = true
        · simp [List.find?_cons, h1', h2', h3]
        · have h3' : tdPred (t.take 500) = false := by simpa using h3
          rw [if_neg (by simpa using h3)]
          by_cases h4 : scotiaPred (t.take 500) = true
          · simp [List.find?_cons, h1', h2', h3', h4]
          · have h4' : scotiaPred (t.take 500) = false := by simpa using h4
            rw [if_neg (by simpa using h4)]
            by_cases h5 : bmoPred (t.take 500) = true
            · simp [List.find?_cons, h1', h2', h3', h4', h5]
            · have h5' : bmoPred (t.take 500) = false := by simpa using h5
              rw [if_neg (by simpa using h5)]
              simp [List.find?_cons, h1', h2', h3', h4', h5']
  refine ⟨?_, hfind, ?_⟩
  · intro t1 t2 h
    unfold detectBank
    rw [h]
  · intro t
    rw [hfind t]
    cases hf : bankProfiles.find? (fun pr => pr.2 (t.take 500)) with
    | some pr =>
      simp only []
      constructor
      · intro h
        exact absurd h (by simp)
      · intro hall
        have := List.find?_some hf
        rw [hall pr (List.mem_of_find?_eq_some hf)] at this
        simp at this
    | none =>
      simp only []
      constructor
      · intro _ pr hpr
        have := List.find?_eq_none.mp hf pr hpr
        simpa using this
      · intro _
        trivial

theorem claim_C5_witness :
    (List.replicate 500 'a' ++ ['b']).take 500 =
        (List.replicate 500 'a' ++ ['c']).take 500 ∧
      detectBank (List.replicate 500 'a' ++ ['b']) =
        detectBank (List.replicate 500 'a' ++ ['c']) := by
  have hlen : (500 : Nat) ≤ (List.replicate 500 'a').length := by
    simp only [List.length_replicate]
    exact le_refl _
  have h : (List.replicate 500 'a' ++ ['b']).take 500 =
      (List.replicate 500 'a' ++ ['c']).take 500 := by
    rw [List.take_append_of_le_length hlen,
      List.take_append_of_le_length hlen]
  exact ⟨h, claim_C5_detect.1 _ _ h⟩

/-! ## Generic driver for global regex replacement (`scrubbers/rbc.js`)

A matcher receives the previous character of the original string (for
word-boundary tests) and the current suffix; it returns the number of
characters consumed (at least 1 for every pattern in the scrubbers) and the
replacement text.  The driver emits replacements and continues scanning
after each match, like `String.prototype.replace` with the `g` flag. -/

def gsubF (m : Option Char → List Char → Option (Nat × List Char)) :
    Nat → Option Char → List Char → List Char
  | 0, _, s => s
  | _ + 1, _, [] => []
  | fuel + 1, prev, c :: cs =>
    match m prev (c :: cs) with
    | some (k, repl) =>
      repl ++ gsubF m fuel (((c :: cs).take (max k 1)).getLast?)
        ((c :: cs).drop (max k 1))
    | none => c :: gsubF m fuel (some c) cs

/-- Fuel wrapper; the input length always suffices. -/
def gsub (m : Option Char → List Char → Option (Nat × List Char))
    (s : List Char) : List Char := gsubF m s.length none s

def hasMatchF (m : Option Char → List Char → Option (Nat × List Char)) :
    Nat → Option Char → List Char → Bool
  | 0, _, _ => false
  | _ + 1, _, [] => false
  | fuel + 1, prev, c :: cs =>
    (m prev (c :: cs)).isSome || hasMatchF m fuel (some c) cs

/-- Does the pattern match at any position of `s`? -/
def hasMatch (m : Option Char → List Char → Option (Nat × List Char))
    (s : List Char) : Bool := hasMatchF m s.length none s

theorem gsubF_no_match (m : Option Char → List Char → Option (Nat × List Char))
    (s : List Char) : ∀ (fuel : Nat) (prev : Option Char),
    hasMatchF m fuel prev s = false → gsubF m fuel prev s = s := by
  induction s with
  | nil => intro fuel prev _; cases fuel <;> rfl
  | cons c cs ih =>
    intro fuel prev h
    cases fuel with
    | zero => rfl
    | succ f =>
      simp only [hasMatchF, Bool.or_eq_false_iff] at h
      cases hm : m prev (c :: cs) with
      | some v => rw [hm] at h; simp at h
      | none =>
        show gsubF m (f + 1) prev (c :: cs) = c :: cs
        simp only [gsubF, hm]
        rw [ih f (some c) h.2]

theorem gsub_no_match (m : Option Char → List Char → Option (Nat × List Char))
    (s : List Char) (h : hasMatch m s = false) : gsub m s = s :=
  gsubF_no_match m s s.length none h

/-- Line-by-line rule application (a `/^...$/gm` replace pass): split on
newlines, rewrite each line, rejoin. -/
def mapLines (f : List Char → List Char) (s : List Char) : List Char :=
  joinCh '\n' ((splitCh '\n' s).map f)

/-- Does any line satisfy the line test? -/
def anyLine (p : List Char → Bool) (s : List Char) : Bool :=
  (splitCh '\n' s).any p

theorem mapLines_no_match (f : List Char → List Char) (p : List Char → Bool)
    (s : List Char) (hf : ∀ l, p l = false → f l = l)
    (h : anyLine p s = false) : mapLines f s = s := by
  unfold mapLines
  have key : ∀ (ls : List (List Char)), (∀ l ∈ ls, f l = l) → ls.map f = ls := by
    intro ls hls
    induction ls with
    | nil => rfl
    | cons a as ihs =>
      rw [List.map_cons, hls a (List.mem_cons_self _ _),
        ihs (fun x hx => hls x (List.mem_cons_of_mem _ hx))]
  rw [key _ (fun l hl => hf l (by
    unfold anyLine at h
    rw [List.any_eq_false] at h
    simpa using h l hl)), joinCh_splitCh]

/-! ## The RBC scrubber (`scrubbers/rbc.js`, `scrub` for RBC) -/

/-- Word-character test on the optional previous character (for `\b`). -/
def isWordOpt : Option Char → Bool
  | none => false
  | some c => isWordC c

/-- Descending candidate lengths `[n, n-1, …, 1]` for a greedy `+`/`{k,}`
quantifier under backtracking. -/
def rangeDesc (n : Nat) : List Nat := (List.range n).reverse.map (· + 1)

/-- Rule 1: `/(?:Your\s+)?account number[:\s]*(\d{5}-\d{7})/gi` replaced by
`'Account number: [REDACTED]'`.  The greedy optional `Your\s+` prefix is
tried first; `[:\s]*` and the digit groups follow maximal runs because
their character classes are disjoint from what must come next. -/
def rbcM1 (_prev : Option Char) (s : List Char) : Option (Nat × List Char) :=
  let label : Option Nat :=
    if prefixAtCI "your".data s then
      let wsn := ((s.drop 4).takeWhile isWsC).length
      if wsn > 0 && prefixAtCI "account number".data (s.drop (4 + wsn)) then
        some (4 + wsn + 14)
      else if prefixAtCI "account number".data s then some 14 else none
    else if prefixAtCI "account number".data s then some 14 else none
  match label with
  | none => none
  | some n =>
    let rest := s.drop n
    let k := (rest.takeWhile (fun c => c = ':' || isWsC c)).length
    let r2 := rest.drop k
    if (r2.take 5).length = 5 && (r2.take 5).all isDigitC &&
        r2.get? 5 = some '-' &&
        ((r2.drop 6).take 7).length = 7 && ((r2.drop 6).take 7).all isDigitC
    then some (n + k + 13, "Account number: [REDACTED]".data)
    else none

/-- Rule 2: `/\b\d{5}-\d{7}\b/g` replaced by `'[REDACTED]'`. -/
def rbcM2 (prev : Option Char) (s : List Char) : Option (Nat × List Char) :=
  if isWordOpt prev then none
  else if (s.take 5).length = 5 && (s.take 5).all isDigitC &&
      s.get? 5 = some '-' &&
      ((s.drop 6).take 7).length = 7 && ((s.drop 6).take 7).all isDigitC &&
      !isWordOpt (s.get? 13)
  then some (13, "[REDACTED]".data)
  else none

/-- Full-line test of `/^([A-Z]+\s+[A-Z\-]+(?:\s+[A-Z\-]+)*)$/`. -/
def rbcNameTest (line : List Char) : Bool :=
  (match line.head? with | some c => isUpperC c | none => false) &&
  (match line.reverse.head? with | some c => !isWsC c | none => false) &&
  (let toks := splitWsTokens line
   decide (toks.length ≥ 2) &&
   (toks.headD []).all isUpperC &&
   (toks.drop 1).all (fun t => t.all (fun c => isUpperC c || c = '-')))

/-- The keep-list of the RBC name rule's replacement callback. -/
def rbcKeepPatterns : List (List Char) :=
  ["ROYAL BANK".data, "RBC".data, "ACCOUNT".data, "STATEMENT".data,
   "TRANSACTION".data, "SERVICE".data, "DEPOSIT".data, "BALANCE".data,
   "DETAILS".data, "SUMMARY".data, "OPENING".data, "CLOSING".data,
   "WITHDRAWALS".data, "DEPOSITS".data, "CONTACT".data, "IMPORTANT".data,
   "PROTECT".data, "INFORMATION".data, "CANADIAN".data]

/-- Rule 3 (per line): all-caps personal names become `'[NAME REDACTED]'`
unless a keep pattern occurs or the shape is implausible for a name. -/
def rbcNameLineRule (line : List Char) : List Char :=
  if rbcNameTest line then
    if rbcKeepPatterns.any (fun p => containsSub line p) then line
    else
      let words := splitWsTokens (trimL line)
      if decide (2 ≤ words.length) && decide (words.length ≤ 4) &&
          decide (line.length < 50) then "[NAME REDACTED]".data
      else line
  else line

/-- Full-line test of `/^[A-Z]?\d{1,4}[A-Z]?$/` (unit numbers). -/
def rbcUnitTest (line : List Char) : Bool :=
  let l1 := match line with
    | c :: t => if isUpperC c then t else line
    | [] => line
  let l2 := match l1.reverse with
    | c :: t => if isUpperC c then t.reverse else l1
    | [] => l1
  !l2.isEmpty && decide (l2.length ≤ 4) && l2.all isDigitC

def rbcUnitLineRule (line : List Char) : List Char :=
  if rbcUnitTest line then "[UNIT]".data else line

/-- Street-type suffixes of the address rule. -/
def rbcStreetSuffixes : List (List Char) :=
  ["STREET".data, "ST".data, "DRIVE".data, "DR".data, "AVENUE".data,
   "AVE".data, "ROAD".data, "RD".data, "BOULEVARD".data, "BLVD".data,
   "LANE".data, "LN".data, "COURT".data, "CT".data, "CRESCENT".data,
   "CRES".data]

def endsWithCI (s suffix : List Char) : Bool := endsWithL (upL s) (upL suffix)

/-- Full-line test of the `/^\d{1,5}\s+[A-Z\s]+(?:STREET|…)$/gmi` address
rule.  The class `[A-Z\s]+` also matches whitespace, so `\s+` can
backtrack and leave whitespace to the class: the part between the digit
run and the street suffix need only be at least two characters, start
with whitespace, and consist of letters and whitespace. -/
def rbcAddressTest (line : List Char) : Bool :=
  let ds := line.takeWhile isDigitC
  decide (1 ≤ ds.length) && decide (ds.length ≤ 5) &&
    (let rest := line.drop ds.length
     rbcStreetSuffixes.any (fun suf =>
       endsWithCI rest suf &&
         (let pre := rest.take (rest.length - suf.length)
          decide (2 ≤ pre.length) &&
          (match pre with
           | c :: _ => isWsC c
           | [] => false) &&
          pre.all (fun c => isAlphaC c || isWsC c))))

def rbcAddressLineRule (line : List Char) : List Char :=
  if rbcAddressTest line then "[ADDRESS]".data else line

/-- Parse the reversed postal-code tail `[A-Z]\d[A-Z]\s?\d[A-Z]\d$`;
returns the reversed remainder before the postal code. -/
def postalRevParse : List Char → Option (List Char)
  | d3 :: l3 :: d2 :: rest =>
    if isDigitC d3 && isUpperC l3 && isDigitC d2 then
      match rest with
      | x :: l2 :: d1 :: l1 :: before =>
        if isWsC x then
          if isUpperC l2 && isDigitC d1 && isUpperC l1 then some before
          else none
        else if isUpperC x && isDigitC l2 && isUpperC d1 then
          some (l1 :: before)
        else none
      | x :: l2 :: d1 :: [] =>
        if isWsC x then none
        else if isUpperC x && isDigitC l2 && isUpperC d1 then some []
        else none
      | _ => none
    else none
  | _ => none

/-- Full-line test of `/^[A-Z\s]+\s+[A-Z]{2}\s+[A-Z]\d[A-Z]\s?\d[A-Z]\d$/`
(city, province, postal code).  The whitespace run before the province is
maximal (the character before it is uppercase), but the city class
`[A-Z\s]+` also matches whitespace, so the part before the province need
only be at least two characters, end with whitespace, and consist of
capitals and whitespace — it may be whitespace throughout. -/
def rbcCityPostalTest (line : List Char) : Bool :=
  match postalRevParse line.reverse with
  | none => false
  | some before =>
    let wsA := (before.takeWhile isWsC).length
    decide (wsA ≥ 1) &&
      (match before.drop wsA with
       | u1 :: u2 :: r5 =>
         isUpperC u1 && isUpperC u2 &&
           decide (2 ≤ r5.length) &&
           (match r5 with
            | c :: _ => isWsC c
            | [] => false) &&
           r5.all (fun c => isUpperC c || isWsC c)
       | _ => false)

def rbcCityPostalLineRule (line : List Char) : List Char :=
  if rbcCityPostalTest line then "[CITY/POSTAL]".data else line

/-- Street-type suffixes of the branch-address rule (case-sensitive). -/
def rbcBranchSuffixes : List (List Char) :=
  ["DR".data, "ST".data, "AVE".data, "RD".data, "BLVD".data]

/-- Full-line test of the branch-address rule
`/^\d{1,5}\s+[A-Z\s]+(?:DR|ST|AVE|RD|BLVD),\s+[A-Z\s]+,\s+[A-Z]{2}\s+[A-Z]\d[A-Z]\s?\d[A-Z]\d$/`:
no component may contain a comma, so the two commas split the line into
exactly three segments; in the first segment, as in the address rule,
`\s+` can backtrack and leave whitespace to the class `[A-Z\s]+`, so the
part between the digit run and the street suffix need only be at least
two characters, start with whitespace, and consist of capitals and
whitespace. -/
def rbcBranchTest (line : List Char) : Bool :=
  match splitCh ',' line with
  | [seg1, seg2, seg3] =>
    (let ds := seg1.takeWhile isDigitC
     decide (1 ≤ ds.length) && decide (ds.length ≤ 5) &&
       (let rest := seg1.drop ds.length
        rbcBranchSuffixes.any (fun suf =>
          endsWithL rest suf &&
            (let pre := rest.take (rest.length - suf.length)
             decide (2 ≤ pre.length) &&
             (match pre with
              | c :: _ => isWsC c
              | [] => false) &&
             pre.all (fun c => isUpperC c || isWsC c))))) &&
    (match seg2 with
     | c :: cs => isWsC c && !cs.isEmpty &&
         (c :: cs).all (fun x => isUpperC x || isWsC x)
     | [] => false) &&
    (match postalRevParse seg3.reverse with
     | none => false
     | some before =>
       let wsA := (before.takeWhile isWsC).length
       decide (wsA ≥ 1) &&
         (match before.drop wsA with
          | u1 :: u2 :: r5 =>
            isUpperC u1 && isUpperC u2 &&
              (r5.isEmpty = false) && r5.all isWsC
          | _ => false))
  | _ => false

def rbcBranchLineRule (line : List Char) : List Char :=
  if rbcBranchTest line then "[BRANCH ADDRESS]".data else line

/-- Character class `[A-Za-z\s]` of the e-transfer recipient group. -/
def recipCls (c : Char) : Bool := isAlphaC c || isWsC c

/-- Character class `[A-Z0-9]` of the reference-code group. -/
def refCls (c : Char) : Bool := isUpperC c || isDigitC c

/-- Rule 5: `/(e-Transfer sent)\s+([A-Za-z\s]+?)\s+([A-Z0-9]{6})/g`
replaced by `'$1 [RECIPIENT] [REF]'`.  Backtracking order: the first
`\s+` greedy (longest first), the lazy recipient (shortest first), the
second `\s+` greedy, then six reference characters. -/
def rbcM5 (_prev : Option Char) (s : List Char) : Option (Nat × List Char) :=
  if prefixAt "e-Transfer sent".data s then
    let r := s.drop 15
    let w1max := (r.takeWhile isWsC).length
    (rangeDesc w1max).findSome? fun w1 =>
      let r1 := r.drop w1
      let recMax := (r1.takeWhile recipCls).length
      (List.range recMax).findSome? fun i =>
        let recLen := i + 1
        let r2 := r1.drop recLen
        let w2max := (r2.takeWhile isWsC).length
        (rangeDesc w2max).findSome? fun w2 =>
          let r3 := r2.drop w2
          if decide ((r3.take 6).length = 6) && (r3.take 6).all refCls then
            some (15 + w1 + recLen + w2 + 6,
              "e-Transfer sent [RECIPIENT] [REF]".data)
          else none
  else none

/-- Rule 6: `/\b[A-Z0-9]{6}\b(?=\d)/g` replaced by `'[REF]'` (the trailing
`\b` and the digit lookahead are contradictory, so this never fires). -/
def rbcM6 (prev : Option Char) (s : List Char) : Option (Nat × List Char) :=
  if isWordOpt prev then none
  else if decide ((s.take 6).length = 6) && (s.take 6).all refCls &&
      !isWordOpt (s.get? 6) &&
      (match s.get? 6 with | some c => isDigitC c | none => false)
  then some (6, "[REF]".data)
  else none

/-- Rule 7: `/(Contactless Interac purchase|Online Banking payment|Telephone Bill Pmt)\s+-\s+\d{4}/g`
replaced by `'$1 - [REF]'`. -/
def rbcM7 (_prev : Option Char) (s : List Char) : Option (Nat × List Char) :=
  ["Contactless Interac purchase".data, "Online Banking payment".data,
   "Telephone Bill Pmt".data].findSome? fun lit =>
    if prefixAt lit s then
      let r := s.drop lit.length
      let w1 := (r.takeWhile isWsC).length
      if decide (w1 ≥ 1) then
        match r.drop w1 with
        | '-' :: r2 =>
          let w2 := (r2.takeWhile isWsC).length
          if decide (w2 ≥ 1) && decide (((r2.drop w2).take 4).length = 4) &&
              ((r2.drop w2).take 4).all isDigitC then
            some (lit.length + w1 + 1 + w2 + 4, lit ++ " - [REF]".data)
          else none
        | _ => none
      else none
    else none

/-- Character class `[-\s\w]` of the document-tracking-code rule. -/
def docCls (c : Char) : Bool := c = '-' || isWsC c || isWordC c

/-- Rule 8: `/RBPDA\d+_\d+_\d+[-\s\w]*/g` replaced by `'[DOC-REF]'`. -/
def rbcM8 (_prev : Option Char) (s : List Char) : Option (Nat × List Char) :=
  if prefixAt "RBPDA".data s then
    let r := s.drop 5
    let d1 := (r.takeWhile isDigitC).length
    if decide (d1 ≥ 1) && (r.get? d1 = some '_') then
      let r2 := r.drop (d1 + 1)
      let d2 := (r2.takeWhile isDigitC).length
      if decide (d2 ≥ 1) && (r2.get? d2 = some '_') then
        let r3 := r2.drop (d2 + 1)
        let d3 := (r3.takeWhile isDigitC).length
        if decide (d3 ≥ 1) then
          let tailLen := ((r3.drop d3).takeWhile docCls).length
          some (5 + d1 + 1 + d2 + 1 + d3 + tailLen, "[DOC-REF]".data)
        else none
      else none
    else none
  else none

/-- Rule 9: `/\*\d{8}\*/g` replaced by `'[BARCODE]'`. -/
def rbcM9 (_prev : Option Char) (s : List Char) : Option (Nat × List Char) :=
  match s with
  | '*' :: r =>
    if decide ((r.take 8).length = 8) && (r.take 8).all isDigitC &&
        r.get? 8 = some '*' then some (10, "[BARCODE]".data)
    else none
  | _ => none

/-- Rule 10: `/\d-\d{3}-\d{3}-\d{4}/g` replaced by `'[PHONE]'`. -/
def rbcM10 (_prev : Option Char) (s : List Char) : Option (Nat × List Char) :=
  match s with
  | d0 :: '-' :: r =>
    if isDigitC d0 && decide ((r.take 3).length = 3) &&
        (r.take 3).all isDigitC && r.get? 3 = some '-' &&
        decide (((r.drop 4).take 3).length = 3) &&
        ((r.drop 4).take 3).all isDigitC && (r.drop 4).get? 3 = some '-' &&
        decide (((r.drop 8).take 4).length = 4) &&
        ((r.drop 8).take 4).all isDigitC
    then some (14, "[PHONE]".data)
    else none
  | _ => none

/-- Rule 11: `/\n{3,}/g` replaced by `'\n\n'`. -/
def rbcM11 (_prev : Option Char) (s : List Char) : Option (Nat × List Char) :=
  let n := (s.takeWhile (fun c => c = '\n')).length
  if decide (n ≥ 3) then some (n, ['\n', '\n']) else none

/-- The ordered RBC redaction pass (`scrub` of `scrubbers/rbc.js`). -/
def rbcRules : List (List Char → List Char) :=
  [gsub rbcM1, gsub rbcM2, mapLines rbcNameLineRule, mapLines rbcUnitLineRule,
   mapLines rbcAddressLineRule, mapLines rbcCityPostalLineRule,
   mapLines rbcBranchLineRule, gsub rbcM5, gsub rbcM6, gsub rbcM7,
   gsub rbcM8, gsub rbcM9, gsub rbcM10, gsub rbcM11]

def rbcScrub (s : List Char) : List Char :=
  rbcRules.foldl (fun t r => r t) s

/-! ## The CIBC scrubber (`scrubbers/cibc.js`-style `scrub`, second module
in `scrubbers/rbc.js` of the corpus) -/

/-- Full-line test of `/^[A-Z][A-Z\s]+$/` (CIBC rule 1). -/
def cibcNameTest (line : List Char) : Bool :=
  match line with
  | c :: rest =>
    isUpperC c && !rest.isEmpty && rest.all (fun x => isUpperC x || isWsC x)
  | [] => false

/-- The keep-list of the CIBC name rule's callback. -/
def cibcKeepPatterns : List (List Char) :=
  ["CIBC".data, "VISA".data, "ACCOUNT".data, "STATEMENT".data,
   "TRANSACTION".data, "SERVICE".data, "DEPOSIT".data, "BALANCE".data]

/-- CIBC rule 1 (per line): all-caps lines become `'[NAME REDACTED]'`
unless a keep pattern occurs. -/
def cibcNameLineRule (line : List Char) : List Char :=
  if cibcNameTest line then
    if cibcKeepPatterns.any (fun p => containsSub line p) then line
    else "[NAME REDACTED]".data
  else line

/-- CIBC rule 2: `/Account number[:\s]+[\d-]+/gi` replaced by
`'Account number: [REDACTED]'`. -/
def cibcM2 (_prev : Option Char) (s : List Char) : Option (Nat × List Char) :=
  if prefixAtCI "account number".data s then
    let r := s.drop 14
    let k := (r.takeWhile (fun c => c = ':' || isWsC c)).length
    if decide (k ≥ 1) then
      let d := ((r.drop k).takeWhile (fun c => isDigitC c || c = '-')).length
      if decide (d ≥ 1) then
        some (14 + k + d, "Account number: [REDACTED]".data)
      else none
    else none
  else none

/-- CIBC rule 3: `/Branch transit number[:\s]+\d+/gi` replaced by
`'Branch transit number: [REDACTED]'`. -/
def cibcM3 (_prev : Option Char) (s : List Char) : Option (Nat × List Char) :=
  if prefixAtCI "branch transit number".data s then
    let r := s.drop 21
    let k := (r.takeWhile (fun c => c = ':' || isWsC c)).length
    if decide (k ≥ 1) then
      let d := ((r.drop k).takeWhile isDigitC).length
      if decide (d ≥ 1) then
        some (21 + k + d, "Branch transit number: [REDACTED]".data)
      else none
    else none
  else none

/-- CIBC rule 4: `/(E-TRANSFER\s+)(\d+)\s*\n\s*([^\n]+)/g` replaced by
`'$1[REF]\n[RECIPIENT]'`.  After the digit run, `\s*` greedily absorbs
whitespace up to a newline (backtracking from the longest prefix), the
newline is consumed, a second greedy `\s*` follows, and `[^\n]+` must
still match at least one character. -/
def cibcM4 (_prev : Option Char) (s : List Char) : Option (Nat × List Char) :=
  if prefixAt "E-TRANSFER".data s then
    let r := s.drop 10
    let w1 := (r.takeWhile isWsC).length
    if decide (w1 ≥ 1) then
      let r1 := r.drop w1
      let d := (r1.takeWhile isDigitC).length
      if decide (d ≥ 1) then
        let R := r1.drop d
        let wmax := (R.takeWhile isWsC).length
        ((List.range (wmax + 1)).reverse.findSome? fun wa =>
          if R.get? wa = some '\n' then
            let R2 := R.drop (wa + 1)
            let w2max := (R2.takeWhile isWsC).length
            ((List.range (w2max + 1)).reverse.findSome? fun wb =>
              let content := ((R2.drop wb).takeWhile (fun c => !(c = '\n'))).length
              if decide (content ≥ 1) then
                some (10 + w1 + d + wa + 1 + wb + content,
                  "E-TRANSFER".data ++ r.take w1 ++ "[REF]\n[RECIPIENT]".data)
              else none)
          else none)
      else none
    else none
  else none

/-- Character class `[A-Z\/\*\s\.]` of CIBC rule 5. -/
def cibcRefCls (c : Char) : Bool :=
  isUpperC c || c = '/' || c = '*' || isWsC c || c = '.'

/-- CIBC rule 5: `/([A-Z\/\*\s\.]+)\s{2,}(\d{10,})/g` replaced by `'$1'`:
succeeds when the maximal class run ends in two whitespace characters and
at least ten digits follow; the kept group is the run without those two
characters. -/
def cibcM5 (_prev : Option Char) (s : List Char) : Option (Nat × List Char) :=
  let R := s.takeWhile cibcRefCls
  if decide (R.length ≥ 3) &&
      (match R.reverse with
       | a :: b :: _ => isWsC a && isWsC b
       | _ => false) then
    let digits := ((s.drop R.length).takeWhile isDigitC).length
    if decide (digits ≥ 10) then
      some (R.length + digits, R.take (R.length - 2))
    else none
  else none

/-- CIBC rule 6: `/\d+\.\d{2} CAD @ [\d\.]+/g` deleted. -/
def cibcM6 (_prev : Option Char) (s : List Char) : Option (Nat × List Char) :=
  let d := (s.takeWhile isDigitC).length
  if decide (d ≥ 1) && s.get? d = some '.' &&
      decide (((s.drop (d + 1)).take 2).length = 2) &&
      ((s.drop (d + 1)).take 2).all isDigitC &&
      prefixAt " CAD @ ".data (s.drop (d + 3)) then
    let run := ((s.drop (d + 10)).takeWhile
      (fun c => isDigitC c || c = '.')).length
    if decide (run ≥ 1) then some (d + 10 + run, []) else none
  else none

/-- Full-line test of `/^\d{10}\s*$/` (CIBC rule 7). -/
def cibcRefLineTest (line : List Char) : Bool :=
  decide ((line.take 10).length = 10) && (line.take 10).all isDigitC &&
    (line.drop 10).all isWsC

def cibcRefLineRule (line : List Char) : List Char :=
  if cibcRefLineTest line then "[REF]".data else line

/-- The ordered CIBC redaction pass. -/
def cibcRules : List (List Char → List Char) :=
  [mapLines cibcNameLineRule, gsub cibcM2, gsub cibcM3, gsub cibcM4,
   gsub cibcM5, gsub cibcM6, mapLines cibcRefLineRule, gsub rbcM11]

def cibcScrub (s : List Char) : List Char :=
  cibcRules.foldl (fun t r => r t) s

/-! ## Rule ordering and no-match behaviour of the redaction passes
(claims C3, C4) -/

/-- Stages of the RBC pass before the name rule. -/
def rbcEarlyRules (s : List Char) : List Char := gsub rbcM2 (gsub rbcM1 s)

/-- Stages of the RBC pass between the name rule and the e-transfer rule. -/
def rbcMidRules (s : List Char) : List Char :=
  mapLines rbcBranchLineRule (mapLines rbcCityPostalLineRule
    (mapLines rbcAddressLineRule (mapLines rbcUnitLineRule s)))

/-- Stages of the RBC pass after the e-transfer rule. -/
def rbcLateRules (s : List Char) : List Char :=
  gsub rbcM11 (gsub rbcM10 (gsub rbcM9 (gsub rbcM8 (gsub rbcM7
    (gsub rbcM6 s)))))

/-- Stages of the CIBC pass between the name rule and the e-transfer rule. -/
def cibcMidRules (s : List Char) : List Char := gsub cibcM3 (gsub cibcM2 s)

/-- Stages of the CIBC pass after the e-transfer rule. -/
def cibcLateRules (s : List Char) : List Char :=
  gsub rbcM11 (mapLines cibcRefLineRule (gsub cibcM6 (gsub cibcM5 s)))

/-- Modelled from the spec: the rule order the claim asserts, with the
e-transfer collapsing rule moved in front of the generic all-caps
name-stripping rule and everything else unchanged. -/
def rbcRulesClaimOrder : List (List Char → List Char) :=
  [gsub rbcM1, gsub rbcM2, gsub rbcM5, mapLines rbcNameLineRule,
   mapLines rbcUnitLineRule, mapLines rbcAddressLineRule,
   mapLines rbcCityPostalLineRule, mapLines rbcBranchLineRule, gsub rbcM6,
   gsub rbcM7, gsub rbcM8, gsub rbcM9, gsub rbcM10, gsub rbcM11]

/-- Modelled from the spec: the RBC pass in the claimed order. -/
def rbcScrubClaimOrder (s : List Char) : List Char :=
  rbcRulesClaimOrder.foldl (fun t r => r t) s

set_option maxHeartbeats 2000000 in
/-- C3 counterexample: on a statement fragment where an e-transfer
recipient name sits alone on a line, the actual pass (name-stripping
first) leaves the reference+recipient pair uncollapsed, while the claimed
order (e-transfer first) collapses it — so the two passes differ and the
actual pass cannot be running the e-transfer rule first. -/
theorem claim_C3_counterexample :
    rbcScrub "e-Transfer sent\nJOHN DOE\nABC123x".data =
      "e-Transfer sent\n[NAME REDACTED]\nABC123x".data ∧
    rbcScrubClaimOrder "e-Transfer sent\nJOHN DOE\nABC123x".data =
      "e-Transfer sent [RECIPIENT] [REF]x".data ∧
    rbcScrub "e-Transfer sent\nJOHN DOE\nABC123x".data ≠
      rbcScrubClaimOrder "e-Transfer sent\nJOHN DOE\nABC123x".data := by
  refine ⟨by decide, by decide, ?_⟩
  intro h
  rw [show rbcScrub "e-Transfer sent\nJOHN DOE\nABC123x".data =
    "e-Transfer sent\n[NAME REDACTED]\nABC123x".data from by decide,
    show rbcScrubClaimOrder "e-Transfer sent\nJOHN DOE\nABC123x".data =
    "e-Transfer sent [RECIPIENT] [REF]x".data from by decide] at h
  exact absurd h (by decide)

set_option maxHeartbeats 2000000 in
/-- C3 (amended): in both issuers' redaction passes the generic all-caps
name-stripping rule runs before the e-transfer reference+recipient
collapsing rule, so the e-transfer rule operates on the shape produced by
name-stripping — and can therefore fail to collapse a pair whose recipient
line was already redacted, as the concrete run shows. -/
theorem claim_C3_amended :
    (∀ s : List Char, rbcScrub s =
      rbcLateRules (gsub rbcM5 (rbcMidRules (mapLines rbcNameLineRule
        (rbcEarlyRules s))))) ∧
    (∀ s : List Char, cibcScrub s =
      cibcLateRules (gsub cibcM4 (cibcMidRules (mapLines cibcNameLineRule
        s)))) ∧
    rbcScrub "e-Transfer sent\nJOHN DOE\nABC123x".data =
      "e-Transfer sent\n[NAME REDACTED]\nABC123x".data := by
  refine ⟨?_, ?_, by decide⟩
  · intro s
    unfold rbcScrub rbcRules rbcLateRules rbcMidRules rbcEarlyRules
    simp only [List.foldl]
  · intro s
    unfold cibcScrub cibcRules cibcLateRules cibcMidRules
    simp only [List.foldl]

/-- No RBC pattern matches anywhere in `s`. -/
def rbcNoMatch (s : List Char) : Bool :=
  !hasMatch rbcM1 s && !hasMatch rbcM2 s && !anyLine rbcNameTest s &&
  !anyLine rbcUnitTest s && !anyLine rbcAddressTest s &&
  !anyLine rbcCityPostalTest s && !anyLine rbcBranchTest s &&
  !hasMatch rbcM5 s && !hasMatch rbcM6 s && !hasMatch rbcM7 s &&
  !hasMatch rbcM8 s && !hasMatch rbcM9 s && !hasMatch rbcM10 s &&
  !hasMatch rbcM11 s

/-- No CIBC pattern matches anywhere in `s`. -/
def cibcNoMatch (s : List Char) : Bool :=
  !anyLine cibcNameTest s && !hasMatch cibcM2 s && !hasMatch cibcM3 s &&
  !hasMatch cibcM4 s && !hasMatch cibcM5 s && !hasMatch cibcM6 s &&
  !anyLine cibcRefLineTest s && !hasMatch rbcM11 s

set_option maxHeartbeats 2000000 in
/-- C4: each issuer's redaction pass is a total function, and on an input
where none of the issuer's substitution patterns matches, it returns the
input unchanged — an unmatched pattern is a no-op rather than an error. -/
theorem claim_C4_unmatched_noop : ∀ s : List Char,
    (rbcNoMatch s = true → rbcScrub s = s) ∧
    (cibcNoMatch s = true → cibcScrub s = s) := by
  intro s
  constructor
  · intro h
    unfold rbcNoMatch at h
    simp only [Bool.and_eq_true, Bool.not_eq_true'] at h
    obtain ⟨⟨⟨⟨⟨⟨⟨⟨⟨⟨⟨⟨⟨h1, h2⟩, h3⟩, h4⟩, h5⟩, h6⟩, h7⟩, h8⟩, h9⟩,
      h10⟩, h11⟩, h12⟩, h13⟩, h14⟩ := h
    unfold rbcScrub rbcRules
    simp only [List.foldl]
    rw [gsub_no_match _ _ h1, gsub_no_match _ _ h2,
      mapLines_no_match _ rbcNameTest _
        (fun l hl => by unfold rbcNameLineRule; rw [hl]; simp) h3,
      mapLines_no_match _ rbcUnitTest _
        (fun l hl => by unfold rbcUnitLineRule; rw [hl]; simp) h4,
      mapLines_no_match _ rbcAddressTest _
        (fun l hl => by unfold rbcAddressLineRule; rw [hl]; simp) h5,
      mapLines_no_match _ rbcCityPostalTest _
        (fun l hl => by unfold rbcCityPostalLineRule; rw [hl]; simp) h6,
      mapLines_no_match _ rbcBranchTest _
        (fun l hl => by unfold rbcBranchLineRule; rw [hl]; simp) h7,
      gsub_no_match _ _ h8, gsub_no_match _ _ h9, gsub_no_match _ _ h10,
      gsub_no_match _ _ h11, gsub_no_match _ _ h12, gsub_no_match _ _ h13,
      gsub_no_match _ _ h14]
  · intro h
    unfold cibcNoMatch at h
    simp only [Bool.and_eq_true, Bool.not_eq_true'] at h
    obtain ⟨⟨⟨⟨⟨⟨⟨g1, g2⟩, g3⟩, g4⟩, g5⟩, g6⟩, g7⟩, g8⟩ := h
    unfold cibcScrub cibcRules
    simp only [List.foldl]
    rw [mapLines_no_match _ cibcNameTest _
        (fun l hl => by unfold cibcNameLineRule; rw [hl]; simp) g1,
      gsub_no_match _ _ g2, gsub_no_match _ _ g3, gsub_no_match _ _ g4,
      gsub_no_match _ _ g5, gsub_no_match _ _ g6,
      mapLines_no_match _ cibcRefLineTest _
        (fun l hl => by unfold cibcRefLineRule; rw [hl]; simp) g7,
      gsub_no_match _ _ g8]

set_option maxHeartbeats 2000000 in
theorem claim_C4_witness :
    (rbcNoMatch "hello, redaction leaves me alone".data = true ∧
      cibcNoMatch "hello, redaction leaves me alone".data = true) ∧
    (rbcScrub "hello, redaction leaves me alone".data =
        "hello, redaction leaves me alone".data ∧
      cibcScrub "hello, redaction leaves me alone".data =
        "hello, redaction leaves me alone".data) :=
  ⟨⟨by decide, by decide⟩,
    (claim_C4_unmatched_noop _).1 (by decide),
    (claim_C4_unmatched_noop _).2 (by decide)⟩

/-! ## `parsers/cibc.js`: the CIBC line parser -/

/-- A transaction record as produced by the per-issuer line parsers
(`cibc.js` and the RBC parser), which carry no balance field. -/
structure PTxn where
  date : List Char
  type : List Char
  merchant : List Char
  description : List Char
  amount : Int
deriving Repr, DecidableEq

/-- Character class `[A-Z\s\/\.\*\-\[\]]` of the CIBC merchant-name regex. -/
def cibcMerchCls (c : Char) : Bool :=
  isUpperC c || isWsC c || c = '/' || c = '.' || c = '*' || c = '-' ||
  c = '[' || c = ']'

/-- The suffix test of `(?:\s+[\d,\.]+|$)`: either the remainder is empty,
or it starts with a whitespace run followed by a digit, comma or dot
(`\s+` cannot give characters back to `[\d,\.]+`, so the match is
deterministic). -/
def cibcTailOk (rest : List Char) : Bool :=
  match rest with
  | [] => true
  | c :: cs =>
    isWsC c &&
      match (c :: cs).dropWhile isWsC with
      | d :: _ => isDigitC d || d = ',' || d = '.'
      | [] => false

/-- Lazy match of `/^([A-Z][A-Z\s\/\.\*\-\[\]]+?)(?:\s+[\d,\.]+|$)/`
(`cibc.js` line 158): the shortest prefix of at least two characters
(capital first, then class characters) whose remainder satisfies the
suffix alternation. -/
def cibcMerchantMatch (line : List Char) : Option (List Char) :=
  match line with
  | c :: rest => if isUpperC c then go [c] rest else none
  | [] => none
where
  go (acc : List Char) : List Char → Option (List Char)
    | [] => none
    | d :: ds =>
      if cibcMerchCls d then
        if cibcTailOk ds then some (acc ++ [d]) else go (acc ++ [d]) ds
      else none

/-- Merchant extraction from the following line for `merchantNext`
patterns (`cibc.js` lines 152-162): the default `'Unknown'` survives when
there is no next line or the regex does not match. -/
def cibcMerchantNext (rest : List (List Char)) : List Char :=
  match rest.get? 1 with
  | some nl0 =>
    match cibcMerchantMatch (trimL nl0) with
    | some m => trimL m
    | none => "Unknown".data
  | none => "Unknown".data

/-- `cleanMerchantName` of `cibc.js` (lines 185-209): marker removal,
`INC`/`LTD`/`CORP` suffix stripping, then the literal `includes`
normalisations of that file. -/
def cibcCleanMerchant (m0 : List Char) : List Char :=
  let m1 := trimL (collapseWs m0)
  let m2 := trimL (replaceAllL "[REDACTED]".data [] m1)
  let m3 := trimL (replaceAllL "[RECIPIENT]".data "E-Transfer Recipient".data m2)
  let m4 := trimL (replaceAllL "[REF]".data [] m3)
  let m5 := stripLegalSuffixCI "INC".data m4
  let m6 := stripLegalSuffixCI "LTD".data m5
  let m7 := stripLegalSuffixCI "CORP".data m6
  if containsSub m7 "UBER".data then "Uber".data
  else if containsSub m7 "SPOTIFY".data then "Spotify".data
  else if containsSub m7 "WEALTHSIMPLE".data then "Wealthsimple".data
  else if containsSub m7 "GOODLIFE".data then "GoodLife Fitness".data
  else if containsSub m7 "SPORTCHEK".data then "SportChek".data
  else if containsSub m7 "MARKS.COM".data then "Marks".data
  else if containsSub m7 "CIBC Securities".data then "CIBC Securities".data
  else if m7.isEmpty then "Unknown Merchant".data
  else m7

/-- One entry of the `patterns` array of `cibc.js`
`parseTransactionLine` (lines 99-148). -/
structure CibcPattern where
  ptype : List Char
  test : List Char → Bool
  merchantNext : Bool
  fixedMerchant : Option (List Char)
  isCredit : Bool

/-- The eight CIBC transaction patterns, in source order (`cibc.js`
lines 99-148). -/
def cibcPatterns : List CibcPattern :=
  [⟨"VISA DEBIT RETAIL PURCHASE".data,
    fun l => containsInOrderCI l "VISA DEBIT".data "PURCHASE".data,
    true, none, false⟩,
   ⟨"VISA DEBIT PURCHASE REVERSAL".data,
    fun l => containsInOrderCI l "VISA DEBIT".data "REVERSAL".data,
    true, none, true⟩,
   ⟨"INTL VISA DEB RETAIL PURCHASE".data,
    fun l => containsInOrderCI l "INTL VISA DEB".data "PURCHASE".data,
    true, none, false⟩,
   ⟨"E-TRANSFER".data,
    fun l => containsSubCI l "E-TRANSFER".data,
    false, some "E-Transfer".data, true⟩,
   ⟨"PREAUTHORIZED DEBIT".data,
    fun l => containsSubCI l "PREAUTHORIZED DEBIT".data,
    true, none, false⟩,
   ⟨"DEPOSIT".data,
    fun l => upL l = "DEPOSIT".data,
    true, none, true⟩,
   ⟨"INTERNET TRANSFER".data,
    fun l => containsSubCI l "INTERNET TRANSFER".data,
    false, some "Internet Transfer".data, false⟩,
   ⟨"SERVICE CHARGE".data,
    fun l => containsSubCI l "SERVICE CHARGE".data,
    true, none, false⟩]

/-- The body of one iteration of the pattern loop (`cibc.js`
lines 150-179), entered when the pattern's regex already matched: extract
the merchant, take the first decimal token of the three-line window as the
amount, and emit, or fail (so that the loop continues). -/
def cibcTryPattern (p : CibcPattern) (date : List Char)
    (rest : List (List Char)) : Option PTxn :=
  let merchant :=
    if p.merchantNext then cibcMerchantNext rest
    else p.fixedMerchant.getD "Unknown".data
  match (tokensAux (joinCh ' ' (rest.take 3))).head? with
  | some tok =>
    some { date := date
           type := if p.isCredit then "credit".data else "debit".data
           merchant := cibcCleanMerchant merchant
           description := p.ptype
           amount := if p.isCredit then parseCents tok else -(parseCents tok) }
  | none => none

/-- `parseTransactionLine` of `cibc.js` (lines 92-183).  `rest` is the
suffix of `allLines` beginning at `currentIndex`, as for the
balance-based parser. -/
def cibcParseTransactionLine (line date : List Char)
    (rest : List (List Char)) : Option PTxn :=
  if containsSub line "CORRECTION".data then none
  else cibcPatterns.findSome? fun p =>
    if p.test line then cibcTryPattern p date rest else none

/-! ## The RBC line parser (`src/unnamed/part_005`) -/

/-- Test of `/^\d+,?\d*\.\d{2}$/` (the RBC balance-line skip,
`part_005` lines 92-95): a digit run, an optional comma with a further
digit run, then a dot and exactly two digits. -/
def rbcSkipLine (line : List Char) : Bool :=
  let d1 := line.takeWhile isDigitC
  let r1 := line.dropWhile isDigitC
  let r2 := match r1 with
            | ',' :: t => t.dropWhile isDigitC
            | _ => r1
  !d1.isEmpty &&
    match r2 with
    | ['.', a, b] => isDigitC a && isDigitC b
    | _ => false

/-- Does `s` start with `\d+\.\d{2}` (a digit run, a dot, two digits)?
Backtracking inside `\d+` cannot help, since a shorter run leaves a digit
where the dot is required. -/
def amtStart (s : List Char) : Bool :=
  let d := s.takeWhile isDigitC
  !d.isEmpty &&
    match s.dropWhile isDigitC with
    | '.' :: a :: b :: _ => isDigitC a && isDigitC b
    | _ => false

/-- Lazy capture `(.+?)(?:\d+\.\d{2}|$)`: the shortest nonempty prefix
whose remainder starts with a decimal amount or is empty. -/
def lazyUntilAmt (s : List Char) : Option (List Char) :=
  (List.range s.length).findSome? fun i =>
    if amtStart (s.drop (i + 1)) || (s.drop (i + 1)).isEmpty then
      some (s.take (i + 1))
    else none

/-- Leftmost search for `/lit\s+(.+?)(?:\d+\.\d{2}|$)/i` (the merchant
captures of the e-Transfer, Telephone Bill Pmt and Misc Payment patterns
of `part_005`).  If the text after the literal and the maximal whitespace
run is empty, the engine backtracks `\s+` by one character and the lazy
group captures the final whitespace character (possible only when the run
has at least two characters). -/
def lazyTailCapture (lit : List Char) : Nat → List Char → Option (List Char)
  | 0, _ => none
  | _ + 1, [] => none
  | fuel + 1, c :: cs =>
    if prefixAtCI lit (c :: cs) then
      let r := (c :: cs).drop lit.length
      let ws := r.takeWhile isWsC
      let r2 := r.dropWhile isWsC
      if ws.isEmpty then lazyTailCapture lit fuel cs
      else
        match lazyUntilAmt r2 with
        | some m => some m
        | none =>
          if 2 ≤ ws.length then some (ws.reverse.take 1)
          else lazyTailCapture lit fuel cs
    else lazyTailCapture lit fuel cs

/-- Fuel wrapper for `lazyTailCapture`; the input length always suffices. -/
def lazyTail (lit s : List Char) : Option (List Char) :=
  lazyTailCapture lit s.length s

/-- Merchant extractor of the Contactless Interac pattern
(`part_005` lines 110-122): `/^([A-Z\s_]+\d{2,4}?)/` on the trimmed next
line — a greedy run of capitals, whitespace and underscores, then (lazily)
exactly two digits. -/
def rbcContactlessMerchant (rest : List (List Char)) : List Char :=
  match rest.get? 1 with
  | some nl0 =>
    let nl := trimL nl0
    let run := nl.takeWhile (fun c => isUpperC c || isWsC c || c = '_')
    if run.isEmpty then "Contactless Purchase".data
    else
      match nl.drop run.length with
      | a :: b :: _ =>
        if isDigitC a && isDigitC b then trimL (run ++ [a, b])
        else "Contactless Purchase".data
      | _ => "Contactless Purchase".data
  | none => "Contactless Purchase".data

/-- First merchant regex of the Online Banking pattern
(`/Online Banking payment\s*-\s*\[REF\]\s*([A-Z\s]+)/i`,
`part_005` lines 128-130); under the `i` flag the class `[A-Z\s]` also
matches lowercase letters.  When the text after `\s*` offers no class
character, the engine backtracks `\s*` and captures the final whitespace
character of the run. -/
def rbcObFirst : Nat → List Char → Option (List Char)
  | 0, _ => none
  | _ + 1, [] => none
  | fuel + 1, c :: cs =>
    if prefixAtCI "Online Banking payment".data (c :: cs) then
      match ((c :: cs).drop 22).dropWhile isWsC with
      | '-' :: r2 =>
        let r3 := r2.dropWhile isWsC
        if prefixAtCI "[REF]".data r3 then
          let ws := (r3.drop 5).takeWhile isWsC
          let cap := ((r3.drop 5).dropWhile isWsC).takeWhile
            (fun c => isAlphaC c || isWsC c)
          if !cap.isEmpty then some cap
          else if !ws.isEmpty then some (ws.reverse.take 1)
          else rbcObFirst fuel cs
        else rbcObFirst fuel cs
      | _ => rbcObFirst fuel cs
    else rbcObFirst fuel cs

/-- Second merchant regex of the Online Banking pattern
(`/^([A-Z\s]+?)(\d|$)/` on the trimmed next line, `part_005`
lines 132-135): a lazy run of capitals/whitespace stopped by a digit or
the end of the line. -/
def rbcObSecond (nl : List Char) : Option (List Char) :=
  match nl with
  | [] => none
  | c :: cs => if isUpperC c || isWsC c then go [c] cs else none
where
  go (acc : List Char) : List Char → Option (List Char)
    | [] => some acc
    | d :: ds =>
      if isDigitC d then some acc
      else if isUpperC d || isWsC d then go (acc ++ [d]) ds
      else none

/-- Merchant extractor of the Online Banking pattern (`part_005`
lines 126-137). -/
def rbcOnlineBankingMerchant (line : List Char)
    (rest : List (List Char)) : List Char :=
  match rbcObFirst line.length line with
  | some m => trimL m
  | none =>
    match rest.get? 1 with
    | some nl0 =>
      match rbcObSecond (trimL nl0) with
      | some m => trimL m
      | none => "Online Payment".data
    | none => "Online Payment".data

/-- `merchant.replace(/\s+\d{2,4}$/, '')` (`part_005` line 253): strip a
trailing run of exactly two to four digits together with the whitespace
run before it. -/
def stripTrailingLocCode (m : List Char) : List Char :=
  let r := m.reverse
  let ds := r.takeWhile isDigitC
  if 2 ≤ ds.length && ds.length ≤ 4 then
    match r.drop ds.length with
    | c :: _ =>
      if isWsC c then ((r.drop ds.length).dropWhile isWsC).reverse else m
    | [] => m
  else m

/-- `cleanMerchantName` of `part_005` (lines 243-276). -/
def rbcCleanMerchant (m0 : List Char) : List Char :=
  let m1 := trimL (collapseWs m0)
  let m2 := trimL (replaceAllL "[REDACTED]".data [] m1)
  let m3 := trimL (replaceAllL "[RECIPIENT]".data "E-Transfer Recipient".data m2)
  let m4 := trimL (replaceAllL "[REF]".data [] m3)
  let m5 := stripTrailingLocCode m4
  let m6 := stripLegalSuffixCI "INC".data m5
  let m7 := stripLegalSuffixCI "LTD".data m6
  if containsSub m7 "FOOD BASICS".data then "Food Basics".data
  else if containsSub m7 "STARBUCKS".data then "Starbucks".data
  else if containsSub m7 "REXALL".data then "Rexall Pharmacy".data
  else if containsSub m7 "GREEN FRESH".data then "Green Fresh".data
  else if containsSub m7 "EVERGREEN".data then "Evergreen Kitchen".data
  else if containsSub m7 "MARSHALLS".data then "Marshalls".data
  else if containsSub m7 "LAGO BAR".data then "Lago Bar & Grill".data
  else if containsSub m7 "FIDO".data then "Fido Mobile".data
  else if containsSub m7 "COKE_".data then "Coca-Cola Vending".data
  else if containsSub m7 "SUPPLEMENT".data then "Supplement King".data
  else if containsSub m7 "ZERO LATENCY".data then "Zero Latency".data
  else
    let m8 := replaceAllL "_".data " ".data m7
    if m8.isEmpty then "Unknown Merchant".data else m8

/-- The glued-number split `numStr.match(/(\d{1,3})\.(\d{2})$/)`
(`part_005` lines 204-208) on a decimal token: the regex is unanchored on
the left, so the leftmost match starts as early as possible and `\d{1,3}`
is greedy — the first group captures the last `min(3, length)` digits of
the integer part, and the whole amount is group1.group2 as a decimal.
(The code comments beside this regex claim e.g. `"873.98" -> "3.98"`,
which would keep only the digits left over after a store code.) -/
def rbcGluedAmount (numStr : List Char) : Int :=
  let ip := numStr.takeWhile (fun c => !(c = '.'))
  let fp := (numStr.dropWhile (fun c => !(c = '.'))).drop 1
  (parseNatDigits ((ip.reverse.take 3).reverse) * 100 +
    parseNatDigits (fp.take 2) : Nat)

/-- The amount extraction of the RBC parser (`part_005` lines 184-236):
all decimal tokens are read from the trimmed next line only; one token is
either split by the glued-number heuristic (3-to-5-digit comma-free
integer part) or parsed whole; of two tokens the second is preferred
unless it exceeds 1000 (then it is a balance and the first is taken); of
three or more the second-to-last is taken.  The `let amount = 0` default
is returned when nothing matches. -/
def rbcAmountFromNext (rest : List (List Char)) : Int :=
  match rest.get? 1 with
  | none => 0
  | some nl0 =>
    match tokensAux (trimL nl0) with
    | [] => 0
    | [numStr] =>
      let intPart := (numStr.takeWhile (fun c => !(c = '.'))).filter
        (fun c => !(c = ','))
      if 3 ≤ intPart.length && intPart.length ≤ 5 && !hasComma numStr then
        rbcGluedAmount numStr
      else parseCents numStr
    | [t0, t1] =>
      if parseCents t1 > 100000 then parseCents t0 else parseCents t1
    | ts => ((ts.map parseCents).get? (ts.length - 2)).getD 0

/-- One entry of the `patterns` array of the RBC
`parseTransactionLine` (`part_005` lines 97-181). -/
structure RbcPattern where
  ptype : List Char
  test : List Char → Bool
  isCredit : Bool
  extract : List Char → List (List Char) → List Char

/-- The six RBC transaction patterns, in source order. -/
def rbcPatterns : List RbcPattern :=
  [⟨"E-Transfer".data,
    fun l => containsSubCI l "e-Transfer sent".data, false,
    fun l _ =>
      match lazyTail "e-Transfer sent".data l with
      | some m => trimL m
      | none => "E-Transfer".data⟩,
   ⟨"Interac Purchase".data,
    fun l => containsSubCI l "Contactless Interac purchase".data, false,
    fun _ rest => rbcContactlessMerchant rest⟩,
   ⟨"Online Banking Payment".data,
    fun l => containsSubCI l "Online Banking payment".data, false,
    fun l rest => rbcOnlineBankingMerchant l rest⟩,
   ⟨"Telephone Bill Payment".data,
    fun l => containsSubCI l "Telephone Bill Pmt".data, false,
    fun l _ =>
      match lazyTail "Telephone Bill Pmt".data l with
      | some m => trimL m
      | none => "Bill Payment".data⟩,
   ⟨"Misc Payment".data,
    fun l => containsSubCI l "Misc Payment".data, true,
    fun l _ =>
      match lazyTail "Misc Payment".data l with
      | some m => trimL m
      | none => "Misc Payment".data⟩,
   ⟨"Monthly Fee".data,
    fun l => containsSubCI l "Monthly fee".data, false,
    fun _ _ => "RBC Monthly Fee".data⟩]

/-- `parseTransactionLine` of the RBC parser (`part_005` lines 91-241):
skip bare balance lines; for each matching pattern extract the merchant
and the amount from the next line, and emit only when the amount is
strictly positive (otherwise the loop continues with the next pattern,
and `null` results after the loop). -/
def rbcParseTransactionLine (line date : List Char)
    (rest : List (List Char)) : Option PTxn :=
  if rbcSkipLine line then none
  else rbcPatterns.findSome? fun p =>
    if p.test line then
      let amount := rbcAmountFromNext rest
      if amount > 0 then
        some { date := date
               type := if p.isCredit then "credit".data else "debit".data
               merchant := rbcCleanMerchant (p.extract line rest)
               description := p.ptype
               amount := if p.isCredit then amount else -amount }
      else none
    else none

/-! ## The merchant-learning operation and its route
(`src/unnamed/part_010`; the Python `merchant_dictionary` module it invokes
is not part of the source tree, so `learn_from_user_edit` itself is
modelled from the spec) -/

/-- A sample transaction attached to a learning request. -/
structure SampleTxn where
  type : List Char
  description : List Char
deriving Repr, DecidableEq

/-- The request body of POST `/api/learn-merchant`
(`{normalized_merchant, canonical_name, category?, transaction?}`). -/
structure LearnReq where
  normalizedMerchant : List Char
  canonicalName : List Char
  category : Option (List Char)
  txn : Option SampleTxn
deriving Repr, DecidableEq

/-- One merchant-dictionary entry (the fields the learning operation
touches). -/
structure DictEntry where
  canonicalName : List Char
  category : Option (List Char)
  version : Nat
deriving Repr, DecidableEq

/-- The merchant dictionary, keyed by normalized merchant key. -/
abbrev MerchantDict := List (List Char × DictEntry)

/-- Modelled from the spec: the closed category set of the merchant
dictionary.  The proofs below depend only on membership being a decidable
test, not on the particular members. -/
def validCategories : List (List Char) :=
  ["Dining & Restaurants".data, "Groceries".data, "Shopping".data,
   "Transportation".data, "Entertainment".data, "Health & Fitness".data,
   "Bills & Utilities".data, "Travel".data]

/-- Modelled from the spec: the transfer/payment exclusion keyword list of
the learning guardrail. -/
def transferKeywords : List (List Char) :=
  ["E-TRANSFER".data, "INTERNET TRANSFER".data, "TRANSFER".data,
   "PAYMENT".data]

/-- Modelled from the spec: the guardrail of `learn_from_user_edit`,
evaluated before any mutation — reject a credit sample transaction, a
transfer/payment transaction kind, a canonical name below the minimum
length (three characters), or a category outside the closed set; the
result is the rejection message, or `none` for acceptance. -/
def guardrailReject (req : LearnReq) : Option (List Char) :=
  let txnReject : Option (List Char) :=
    match req.txn with
    | some t =>
      if t.type = "credit".data then
        some "sample transaction is a credit".data
      else if transferKeywords.any (fun k => containsSubCI t.description k) then
        some "transaction kind is a transfer or payment".data
      else none
    | none => none
  match txnReject with
  | some m => some m
  | none =>
    if req.canonicalName.length < 3 then
      some "canonical name too short".data
    else
      match req.category with
      | some c =>
        if validCategories.contains c then none
        else some "invalid category".data
      | none => none

/-- Modelled from the spec: `learn_from_user_edit` — guardrail first; on
acceptance create a version-1 entry for a new key or update the existing
entry (canonical name, category, incremented version); returns
`(success, message)` together with the in-memory dictionary. -/
def learnFromUserEdit (dict : MerchantDict) (req : LearnReq) :
    Bool × List Char × MerchantDict :=
  match guardrailReject req with
  | some m => (false, m, dict)
  | none =>
    match dict.find? (fun kv => kv.fst = req.normalizedMerchant) with
    | some _ =>
      (true, "merchant updated".data,
       dict.map (fun kv =>
         if kv.fst = req.normalizedMerchant then
           (kv.fst,
            { canonicalName := req.canonicalName
              category := match req.category with
                          | some c => some c
                          | none => kv.snd.category
              version := kv.snd.version + 1 })
         else kv))
    | none =>
      (true, "merchant created".data,
       dict ++ [(req.normalizedMerchant,
                 { canonicalName := req.canonicalName
                   category := req.category
                   version := 1 })])

/-- The three response shapes of the route: the 400 field-validation
error, the 200 success response, and the 400 structured rejection
(`{success: false, message}`). -/
inductive RouteResult where
  | fieldError (msg : List Char)
  | ok (msg : List Char)
  | rejected (msg : List Char)
deriving Repr, DecidableEq

/-- POST `/api/learn-merchant` (`src/unnamed/part_010`): validate the
required fields, run `learn_from_user_edit` on the persisted dictionary,
save the dictionary only when it reports success, and map a rejection to
a 400 response with `success: false` and the message — not a thrown
error.  The returned pair is (response, dictionary as persisted after the
call). -/
def learnRoute (persisted : MerchantDict) (req : LearnReq) :
    RouteResult × MerchantDict :=
  if req.normalizedMerchant.isEmpty || req.canonicalName.isEmpty then
    (RouteResult.fieldError
      "Missing required fields: normalized_merchant and canonical_name".data,
     persisted)
  else
    match learnFromUserEdit persisted req with
    | (true, msg, newDict) => (RouteResult.ok msg, newDict)
    | (false, msg, _) => (RouteResult.rejected msg, persisted)

/-! ## Properties of the line parsers (claims C6, C7, C8) and of the
learning route (claim C9) -/

theorem findSome?_some_mem {α β : Type} (f : α → Option β) :
    ∀ (l : List α) (b : β), l.findSome? f = some b →
      ∃ a, a ∈ l ∧ f a = some b := by
  intro l
  induction l with
  | nil => intro b h; simp [List.findSome?_nil] at h
  | cons a l ih =>
    intro b h
    rw [List.findSome?_cons] at h
    cases hfa : f a with
    | some c =>
      rw [hfa] at h
      exact ⟨a, List.mem_cons_self a l, hfa.trans h⟩
    | none =>
      rw [hfa] at h
      obtain ⟨x, hx, hfx⟩ := ih b h
      exact ⟨x, List.mem_cons_of_mem a hx, hfx⟩

theorem cibcPTL_no_tokens (line date : List Char) (rest : List (List Char))
    (h : tokensAux (joinCh ' ' (rest.take 3)) = []) :
    cibcParseTransactionLine line date rest = none := by
  unfold cibcParseTransactionLine
  by_cases hc : containsSub line "CORRECTION".data = true
  · rw [if_pos hc]
  · rw [if_neg hc]
    apply findSome?_none_of_all
    intro p hp
    dsimp only
    by_cases ht : p.test line = true
    · rw [if_pos ht]
      unfold cibcTryPattern
      rw [h]
      rfl
    · rw [if_neg ht]

theorem rbcPTL_zero_amount (line date : List Char) (rest : List (List Char))
    (h : rbcAmountFromNext rest = 0) :
    rbcParseTransactionLine line date rest = none := by
  unfold rbcParseTransactionLine
  by_cases hs : rbcSkipLine line = true
  · rw [if_pos hs]
  · rw [if_neg hs]
    apply findSome?_none_of_all
    intro p hp
    dsimp only
    by_cases ht : p.test line = true
    · rw [if_pos ht, h]
      simp
    · rw [if_neg ht]

theorem rbcPTL_amount_ne_zero (line date : List Char) (rest : List (List Char))
    (t : PTxn) (h : rbcParseTransactionLine line date rest = some t) :
    t.amount ≠ 0 := by
  unfold rbcParseTransactionLine at h
  by_cases hs : rbcSkipLine line = true
  · rw [if_pos hs] at h; exact absurd h (by simp)
  · rw [if_neg hs] at h
    obtain ⟨p, _, hfp⟩ := findSome?_some_mem _ _ _ h
    dsimp only at hfp
    by_cases ht : p.test line = true
    · rw [if_pos ht] at hfp
      by_cases hpos : rbcAmountFromNext rest > 0
      · rw [if_pos hpos] at hfp
        obtain rfl := Option.some.inj hfp
        dsimp only
        by_cases hcr : p.isCredit = true
        · rw [if_pos hcr]; omega
        · rw [if_neg hcr]; omega
      · rw [if_neg hpos] at hfp
        exact absurd hfp (by simp)
    · rw [if_neg ht] at hfp
      exact absurd hfp (by simp)

/-- C7: a candidate line with no resolvable amount yields no transaction:
the balance-based and CIBC parsers return nothing when the three-line
window contains no decimal token, the RBC parser returns nothing when
there is no next line or the next line contains no decimal token (its
`amount = 0` default never survives the `amount > 0` emission guard), and
every transaction the RBC parser does emit has a nonzero amount. -/
theorem claim_C7_no_amount_dropped :
    (∀ line date rest prev bank,
        tokensAux (joinCh ' ' (rest.take 3)) = [] →
        bbParseTransactionLine line date rest prev bank = none) ∧
    (∀ line date rest,
        tokensAux (joinCh ' ' (rest.take 3)) = [] →
        cibcParseTransactionLine line date rest = none) ∧
    (∀ line date rest, rest.get? 1 = none →
        rbcParseTransactionLine line date rest = none) ∧
    (∀ line date rest nl, rest.get? 1 = some nl →
        tokensAux (trimL nl) = [] →
        rbcParseTransactionLine line date rest = none) ∧
    (∀ line date rest t,
        rbcParseTransactionLine line date rest = some t → t.amount ≠ 0) := by
  refine ⟨?_, ?_, ?_, ?_, rbcPTL_amount_ne_zero⟩
  · intro line date rest prev bank h
    simp [bbParseTransactionLine, h]
  · exact cibcPTL_no_tokens
  · intro line date rest h
    rw [List.get?_eq_getElem?] at h
    exact rbcPTL_zero_amount line date rest (by simp [rbcAmountFromNext, h])
  · intro line date rest nl h1 h2
    rw [List.get?_eq_getElem?] at h1
    exact rbcPTL_zero_amount line date rest (by simp [rbcAmountFromNext, h1, h2])

theorem claim_C7_witness :
    bbParseTransactionLine "E-TRANSFER".data "2025-11-03".data
      ["E-TRANSFER".data, "no amount here".data] (some 1000) "cibc".data
      = none ∧
    cibcParseTransactionLine "E-TRANSFER".data "2025-11-03".data
      ["E-TRANSFER".data, "no amount here".data] = none ∧
    rbcParseTransactionLine "Monthly fee".data "2025-11-03".data
      ["Monthly fee".data] = none ∧
    rbcParseTransactionLine "Monthly fee".data "2025-11-03".data
      ["Monthly fee".data, "no numbers".data] = none ∧
    ({ date := "2025-11-03".data, type := "debit".data,
       merchant := "SHOP".data, description := "Interac Purchase".data,
       amount := -1234 } : PTxn).amount ≠ 0 :=
  ⟨claim_C7_no_amount_dropped.1 _ _ _ _ _ (by decide),
   claim_C7_no_amount_dropped.2.1 _ _ _ (by decide),
   claim_C7_no_amount_dropped.2.2.1 _ _ _ (by decide),
   claim_C7_no_amount_dropped.2.2.2.1 _ _ _ "no numbers".data
     (by decide) (by decide),
   claim_C7_no_amount_dropped.2.2.2.2 "Contactless Interac purchase".data
     "2025-11-03".data
     ["Contactless Interac purchase".data, "SHOP 12.34".data] _ (by decide)⟩

set_option maxHeartbeats 1000000 in
/-- C6 counterexample: a CORRECTION line whose amount is perfectly
resolvable is dropped by both the CIBC and the balance-based parser (it
yields no transaction at all), rather than being extracted as its own
signed transaction; the identical line without the marker is extracted,
so the correction marker alone causes the drop. -/
theorem claim_C6_counterexample :
    cibcParseTransactionLine "VISA DEBIT RETAIL PURCHASE CORRECTION".data
      "2025-11-03".data
      ["VISA DEBIT RETAIL PURCHASE CORRECTION".data, "AMAZON.CA 45.67".data]
      = none ∧
    bbParseTransactionLine "VISA DEBIT RETAIL PURCHASE CORRECTION".data
      "2025-11-03".data
      ["VISA DEBIT RETAIL PURCHASE CORRECTION".data, "AMAZON.CA 45.67".data]
      (some 10000) "cibc".data = none ∧
    cibcParseTransactionLine "VISA DEBIT RETAIL PURCHASE".data
      "2025-11-03".data
      ["VISA DEBIT RETAIL PURCHASE".data, "AMAZON.CA 45.67".data] =
      some { date := "2025-11-03".data, type := "debit".data,
             merchant := "AMAZON.CA".data,
             description := "VISA DEBIT RETAIL PURCHASE".data,
             amount := -4567 } := by
  refine ⟨by decide, by decide, by decide⟩

/-- C6 (amended): lines recognised as corrections are dropped entirely —
any line containing `CORRECTION` yields no transaction in either the CIBC
or the balance-based parser — whereas CIBC reversal lines (matching the
`VISA DEBIT.*REVERSAL` pattern without matching the earlier
`VISA DEBIT.*PURCHASE` pattern) are extracted as their own credit
transaction whose amount is the nonnegative value of the first decimal
token of the three-line window. -/
theorem claim_C6_corrections_dropped_reversals_kept :
    (∀ line date rest prev bank,
        containsSub line "CORRECTION".data = true →
        cibcParseTransactionLine line date rest = none ∧
        bbParseTransactionLine line date rest prev bank = none) ∧
    (∀ line date rest tok,
        containsSub line "CORRECTION".data = false →
        containsInOrderCI line "VISA DEBIT".data "PURCHASE".data = false →
        containsInOrderCI line "VISA DEBIT".data "REVERSAL".data = true →
        (tokensAux (joinCh ' ' (rest.take 3))).head? = some tok →
        cibcParseTransactionLine line date rest =
          some { date := date, type := "credit".data,
                 merchant := cibcCleanMerchant (cibcMerchantNext rest),
                 description := "VISA DEBIT PURCHASE REVERSAL".data,
                 amount := parseCents tok } ∧
        0 ≤ parseCents tok) := by
  constructor
  · intro line date rest prev bank h
    constructor
    · unfold cibcParseTransactionLine
      rw [if_pos h]
    · simp [bbParseTransactionLine, h]
  · intro line date rest tok h0 h1 h2 h3
    constructor
    · unfold cibcParseTransactionLine
      rw [if_neg (by simp [h0])]
      unfold cibcPatterns
      rw [List.findSome?_cons]
      dsimp only
      rw [h1, if_neg (by simp)]
      rw [List.findSome?_cons]
      dsimp only
      rw [h2, if_pos rfl]
      unfold cibcTryPattern
      dsimp only
      rw [h3]
      rfl
    · unfold parseCents
      exact Int.natCast_nonneg _

set_option maxHeartbeats 1000000 in
theorem claim_C6_witness :
    (containsSub "SERVICE CHARGE CORRECTION".data "CORRECTION".data = true ∧
     cibcParseTransactionLine "SERVICE CHARGE CORRECTION".data
       "2025-12-01".data
       ["SERVICE CHARGE CORRECTION".data, "3.90".data] = none ∧
     bbParseTransactionLine "SERVICE CHARGE CORRECTION".data
       "2025-12-01".data
       ["SERVICE CHARGE CORRECTION".data, "3.90".data]
       (some 2000) "cibc".data = none) ∧
    (cibcParseTransactionLine "VISA DEBIT REVERSAL".data "2025-12-01".data
       ["VISA DEBIT REVERSAL".data, "SHOP 12.34".data] =
       some { date := "2025-12-01".data, type := "credit".data,
              merchant := cibcCleanMerchant (cibcMerchantNext
                ["VISA DEBIT REVERSAL".data, "SHOP 12.34".data]),
              description := "VISA DEBIT PURCHASE REVERSAL".data,
              amount := parseCents "12.34".data } ∧
     0 ≤ parseCents "12.34".data) :=
  ⟨⟨by decide,
    (claim_C6_corrections_dropped_reversals_kept.1 _ _
      ["SERVICE CHARGE CORRECTION".data, "3.90".data] (some 2000) "cibc".data
      (by decide)).1,
    (claim_C6_corrections_dropped_reversals_kept.1 _ _
      ["SERVICE CHARGE CORRECTION".data, "3.90".data] (some 2000) "cibc".data
      (by decide)).2⟩,
   claim_C6_corrections_dropped_reversals_kept.2 _ _ _ "12.34".data
     (by decide) (by decide) (by decide) (by decide)⟩

set_option maxHeartbeats 1000000 in
/-- C8: the glued-number heuristic of the RBC no-balance path does not
keep "the last 1-3 digits before the decimal point" in the documented
sense (the code comments beside it give `"873.98" -> "3.98"` and
`"87110.71" -> "10.71"`): the unanchored leftmost-greedy regex
`(\d{1,3})\.(\d{2})$` always captures the last three digits of a
3-to-5-digit integer part, so `873.98` is returned whole (the heuristic
is a no-op on 3-digit integer parts), `87110.71` yields `110.71`, and a
Contactless Interac purchase whose next line reads `FOOD BASICS 873.98`
is emitted with amount `-873.98`, not the documented `-3.98`. -/
theorem claim_C8_glued_split_takes_last_three :
    rbcGluedAmount "873.98".data = 87398 ∧
    rbcGluedAmount "87110.71".data = 11071 ∧
    rbcGluedAmount "74613.56".data = 61356 ∧
    rbcParseTransactionLine "Contactless Interac purchase".data
      "2025-11-05".data
      ["Contactless Interac purchase".data, "FOOD BASICS 873.98".data] =
      some { date := "2025-11-05".data, type := "debit".data,
             merchant := "Food Basics".data,
             description := "Interac Purchase".data,
             amount := -87398 } := by
  refine ⟨by decide, by decide, by decide, by decide⟩

/-- C9: a learning call rejected by the guardrail produces the structured
failure response — success false with the guardrail's reason, surfaced by
the route as a 400 rejection value, never a thrown error — and the
persisted merchant dictionary is returned unchanged: the guardrail is
evaluated before any mutation and the dictionary is saved only on
acceptance. -/
theorem claim_C9_guardrail_structured_failure :
    ∀ (dict : MerchantDict) (req : LearnReq) (m : List Char),
      guardrailReject req = some m →
      req.normalizedMerchant.isEmpty = false →
      req.canonicalName.isEmpty = false →
      learnRoute dict req = (RouteResult.rejected m, dict) := by
  intro dict req m h h1 h2
  simp [learnRoute, learnFromUserEdit, h, h1, h2]

theorem claim_C9_witness :
    guardrailReject
      { normalizedMerchant := "uber trip".data, canonicalName := "Uber".data,
        category := none,
        txn := some { type := "credit".data,
                      description := "UBER CANADA REFUND".data } } =
      some "sample transaction is a credit".data ∧
    learnRoute
      [("uber".data,
        { canonicalName := "Uber".data,
          category := some "Transportation".data, version := 1 })]
      { normalizedMerchant := "uber trip".data, canonicalName := "Uber".data,
        category := none,
        txn := some { type := "credit".data,
                      description := "UBER CANADA REFUND".data } } =
      (RouteResult.rejected "sample transaction is a credit".data,
       [("uber".data,
         { canonicalName := "Uber".data,
           category := some "Transportation".data, version := 1 })]) :=
  ⟨by decide,
   claim_C9_guardrail_structured_failure _ _ _
     (by decide) (by decide) (by decide)⟩

end Finsight
